import Mathlib

/-!
Verification development for the SQLTYPE repository: a shallow embedding of
the SQL CREATE TABLE parsing core (statement extractor, field parser, table
extractor, type mapper) together with theorems about the extraction pipeline.

Text is modelled as `List Char`.  Each JavaScript regular expression used by
the source is embedded as an explicit character-level scanner.  Every regex of
the source is effectively deterministic on the inputs considered (the
alternations are first-character disjoint and the greedy quantifiers never
need to give characters back for a successful match), so each scanner follows
the greedy, leftmost-match semantics of the corresponding JS regex directly.
Thrown `SQLParseError` / `TypeMappingError` exceptions are modelled with
`Except`.
-/

/-- The backtick character, written via its code point. -/
def bqChar : Char := Char.ofNat 96

/-- The single-quote character, written via its code point. -/
def sqChar : Char := Char.ofNat 39

/-- The double-quote character, written via its code point. -/
def dqChar : Char := Char.ofNat 34

/-- The backslash character, written via its code point. -/
def bsChar : Char := Char.ofNat 92

/-- ASCII lower-casing, as `String.prototype.toLowerCase` acts on the ASCII
range (the source only compares ASCII keywords). -/
def lowerC (c : Char) : Char :=
  if 65 ≤ c.toNat ∧ c.toNat ≤ 90 then Char.ofNat (c.toNat + 32) else c

/-- ASCII upper-casing, for `String.prototype.toUpperCase` on ASCII. -/
def upperC (c : Char) : Char :=
  if 97 ≤ c.toNat ∧ c.toNat ≤ 122 then Char.ofNat (c.toNat - 32) else c

/-- Case-insensitive character comparison (the `i` regex flag). -/
def ciEqC (a b : Char) : Bool := lowerC a = lowerC b

/-- JavaScript whitespace class `\s` (also what `String.prototype.trim`
removes): space, tab, line feed, vertical tab, form feed, carriage return,
no-break space and the BOM.  The exotic Unicode space code points are included
for completeness. -/
def isJsSpace (c : Char) : Bool :=
  c = ' ' || c = Char.ofNat 9 || c = Char.ofNat 10 || c = Char.ofNat 11 ||
  c = Char.ofNat 12 || c = Char.ofNat 13 || c = Char.ofNat 160 ||
  c = Char.ofNat 0x1680 || (0x2000 ≤ c.toNat && c.toNat ≤ 0x200a) ||
  c = Char.ofNat 0x2028 || c = Char.ofNat 0x2029 || c = Char.ofNat 0x202f ||
  c = Char.ofNat 0x205f || c = Char.ofNat 0x3000 || c = Char.ofNat 0xfeff

/-- JavaScript word-character class `\w`: ASCII letters, digits and `_`. -/
def isWordChar (c : Char) : Bool :=
  (65 ≤ c.toNat && c.toNat ≤ 90) || (97 ≤ c.toNat && c.toNat ≤ 122) ||
  (48 ≤ c.toNat && c.toNat ≤ 57) || c.toNat = 95

/-- ASCII decimal digit, the `\d` class. -/
def isDigitChar (c : Char) : Bool := 48 ≤ c.toNat && c.toNat ≤ 57

/-- Lower-case hexadecimal digit as used by the `/0x[0-9a-f]{16,}/i` scan
(case-insensitively). -/
def isHexChar (c : Char) : Bool :=
  isDigitChar c || (97 ≤ (lowerC c).toNat && (lowerC c).toNat ≤ 102)

/-- ASCII letter, for the `[a-zA-Z]` class. -/
def isAsciiLetter (c : Char) : Bool :=
  (65 ≤ c.toNat && c.toNat ≤ 90) || (97 ≤ c.toNat && c.toNat ≤ 122)

/-- `String.prototype.trim`: drop JS whitespace from both ends. -/
def trimL (l : List Char) : List Char :=
  ((l.dropWhile isJsSpace).reverse.dropWhile isJsSpace).reverse

/-- Erase every JS whitespace character; used to state equality of texts
modulo whitespace. -/
def stripWs (l : List Char) : List Char := l.filter (fun c => !isJsSpace c)

/-- Convenience coercion from string literals to the character-list model. -/
def cs (s : String) : List Char := s.data

/-- Case-insensitive literal matcher: consume `pat` (given lower-case) from
the input, returning the consumed original characters and the remainder. -/
def matchCi (pat : List Char) (l : List Char) : Option (List Char × List Char) :=
  match pat, l with
  | [], l => some ([], l)
  | _ :: _, [] => none
  | p :: ps, c :: rest =>
    if ciEqC p c then
      match matchCi ps rest with
      | some (e, r) => some (c :: e, r)
      | none => none
    else none

/-- Greedy `\s*`: split off the leading JS-whitespace run. -/
def wsMany (l : List Char) : List Char × List Char :=
  (l.takeWhile isJsSpace, l.dropWhile isJsSpace)

/-- Greedy `\s+`: at least one whitespace character. -/
def wsSome (l : List Char) : Option (List Char × List Char) :=
  match l with
  | [] => none
  | c :: _ => if isJsSpace c then some (wsMany l) else none

/-- Greedy `\w+`: at least one word character. -/
def wordSome (l : List Char) : Option (List Char × List Char) :=
  match l with
  | [] => none
  | c :: _ =>
    if isWordChar c then some (l.takeWhile isWordChar, l.dropWhile isWordChar)
    else none

/-- Greedy run of characters satisfying `p`, at least one. -/
def manySome (p : Char → Bool) (l : List Char) : Option (List Char × List Char) :=
  match l with
  | [] => none
  | c :: _ => if p c then some (l.takeWhile p, l.dropWhile p) else none

/-- Expect one literal character. -/
def oneChar (ch : Char) (l : List Char) : Option (List Char × List Char) :=
  match l with
  | [] => none
  | c :: rest => if c = ch then some ([c], rest) else none

/-- Case-sensitive prefix test on character lists. -/
def startsList (sub l : List Char) : Bool :=
  match sub, l with
  | [], _ => true
  | _ :: _, [] => false
  | a :: as, b :: bs => a = b && startsList as bs

/-- Substring containment, the semantics of `String.prototype.includes`. -/
def containsSub (l sub : List Char) : Bool :=
  match l with
  | [] => sub.isEmpty
  | _ :: rest => startsList sub l || containsSub rest sub

namespace SQLParser

/-- Embedding of the field-list capture of `CREATE_TABLE_REGEX`
(src/unnamed/part_003 line 9): the sub-expression
`((?:[^()]|\([^)]*\))*)\)`.  The star is a two-state scan: outside a
parenthesised group the next top-level closing parenthesis terminates the
capture; a `(` enters a group whose body `[^)]*` runs to the very next `)`
(so the group itself tolerates further `(` but no `)`).  Returns the captured
characters (group 4 of the regex) and the input remaining after the closing
parenthesis, or `none` when the regex cannot match from this start. -/
def captureFields : Bool → List Char → Option (List Char × List Char)
  | _, [] => none
  | true, c :: rest =>
    if c = ')' then
      match captureFields false rest with
      | some (e, r) => some (c :: e, r)
      | none => none
    else
      match captureFields true rest with
      | some (e, r) => some (c :: e, r)
      | none => none
  | false, c :: rest =>
    if c = ')' then some ([], rest)
    else if c = '(' then
      match captureFields true rest with
      | some (e, r) => some (c :: e, r)
      | none => none
    else
      match captureFields false rest with
      | some (e, r) => some (c :: e, r)
      | none => none

end SQLParser

namespace Validation

/-- Error value for thrown `SQLParseError`s. -/
structure SQLParseErr where
  msg : String
  deriving Repr, DecidableEq

/-- Existence of a pattern match at some position, threading the previous
character (needed for `\b` word boundaries and escape checks). -/
def scanExistsP (f : Option Char → List Char → Bool) : Option Char → List Char → Bool
  | prev, [] => f prev []
  | prev, c :: rest => f prev (c :: rest) || scanExistsP f (some c) rest

/-- The `.` regex character class without the `s` flag: anything except line
terminators. -/
def dotChar (c : Char) : Bool :=
  !(c = Char.ofNat 10 || c = Char.ofNat 13 || c = Char.ofNat 0x2028 || c = Char.ofNat 0x2029)

/-- Match `\b<word>\b` case-insensitively at the head of `l`, where `prev` is
the character before `l`; returns the remainder after the word. -/
def wordBoundedCiAt (w : List Char) (prev : Option Char) (l : List Char) : Option (List Char) :=
  if (match prev with | some p => isWordChar p | none => false) then none
  else match matchCi w l with
    | some (_, r) =>
      match r with
      | [] => some []
      | c :: _ => if isWordChar c then none else some r
    | none => none

/-- Seek a sub-match across `.*` (no line terminators): try `f` at every
position reachable without crossing a line terminator. -/
def seekOnDots (f : List Char → Option (List Char)) : List Char → Option (List Char)
  | [] => f []
  | c :: rest =>
    match f (c :: rest) with
    | some r => some r
    | none => if dotChar c then seekOnDots f rest else none

/-- Same, for a boolean word search that needs the previous character. -/
def seekWordOnDots (g : Option Char → List Char → Bool) : Option Char → List Char → Bool
  | prev, [] => g prev []
  | prev, c :: rest => g prev (c :: rest) || (dotChar c && seekWordOnDots g (some c) rest)

/-- Dangerous pattern 1: `/;\s*(DROP|DELETE|UPDATE|ALTER)\s+/gi`. -/
def dangerStackedAt (l : List Char) : Bool :=
  match oneChar ';' l with
  | none => false
  | some (_, r1) =>
    let r2 := (wsMany r1).2
    let kw := fun (k : String) =>
      match matchCi (cs k) r2 with
      | some (_, r3) => (wsSome r3).isSome
      | none => false
    kw "drop" || kw "delete" || kw "update" || kw "alter"

/-- The lookahead body `INTO\s+[`\w]+\s*\(` of dangerous pattern 2. -/
def intoTableAt (l : List Char) : Bool :=
  (do
    let (_, r1) ← matchCi (cs "into") l
    let (_, r2) ← wsSome r1
    let (_, r3) ← manySome (fun c => isWordChar c || c = bqChar) r2
    let r4 := (wsMany r3).2
    let (_, _) ← oneChar '(' r4
    pure ()).isSome

/-- Dangerous pattern 2: `/;\s*INSERT\s+(?!INTO\s+[`\w]+\s*\()/gi`.  The
greedy `\s+` backtracks against the negative lookahead: with two or more
whitespace characters after `INSERT` the lookahead always fails to see
`INTO` (it starts at a whitespace character), so the pattern matches; with
exactly one, the lookahead decides. -/
def dangerInsertAt (l : List Char) : Bool :=
  match oneChar ';' l with
  | none => false
  | some (_, r1) =>
    let r2 := (wsMany r1).2
    match matchCi (cs "insert") r2 with
    | none => false
    | some (_, r3) =>
      let w := r3.takeWhile isJsSpace
      let r4 := r3.dropWhile isJsSpace
      if w.isEmpty then false
      else if 2 ≤ w.length then true
      else !intoTableAt r4

/-- Dangerous pattern 3: `/\bUNION\b.*\bSELECT\b/gi`. -/
def dangerUnionAt (prev : Option Char) (l : List Char) : Bool :=
  match wordBoundedCiAt (cs "union") prev l with
  | none => false
  | some r =>
    seekWordOnDots (fun p u => (wordBoundedCiAt (cs "select") p u).isSome) (some 'n') r

/-- Dangerous pattern 4: `/<script[^>]*>.*?<\/script>/gi`. -/
def dangerScriptAt (l : List Char) : Bool :=
  (do
    let (_, r1) ← matchCi (cs "<script") l
    let r2 := r1.dropWhile (fun c => !(c = '>'))
    let (_, r3) ← oneChar '>' r2
    seekOnDots (fun u => match matchCi (cs "</script>") u with
      | some pr => some pr.2
      | none => none) r3).isSome

/-- Dangerous pattern 5: `/(\||\$\(|\$\x7b)/g` — pipe, dollar-paren or
dollar-brace. -/
def dangerShell (l : List Char) : Bool :=
  l.any (fun c => c = '|') || containsSub l (cs "$(") || containsSub l (cs "$\x7b")

/-- Dangerous pattern 6: `/&(?![a-zA-Z]+;)/g` — an ampersand that does not
start an HTML entity. -/
def dangerAmpAt (l : List Char) : Bool :=
  match oneChar '&' l with
  | none => false
  | some (_, r1) =>
    !(match manySome isAsciiLetter r1 with
      | some (_, r2) => (oneChar ';' r2).isSome
      | none => false)

/-- Dangerous pattern 7: `/\/\*.*\.\.[\/\\].*\*\//gi` — path traversal inside
an SQL comment. -/
def dangerTraversalAt (l : List Char) : Bool :=
  (do
    let (_, r1) ← matchCi (cs "/*") l
    let r2 ← seekOnDots (fun u => do
        let (_, u1) ← matchCi (cs "..") u
        match u1 with
        | c :: u2 => if c = '/' || c = bsChar then some u2 else none
        | [] => none) r1
    seekOnDots (fun u => match matchCi (cs "*/") u with
        | some pr => some pr.2
        | none => none) r2).isSome

/-- Dangerous pattern 8: `/0x[0-9a-f]{16,}/gi` — a long hex run. -/
def dangerHexAt (l : List Char) : Bool :=
  match matchCi (cs "0x") l with
  | none => false
  | some (_, r1) => 16 ≤ (r1.takeWhile isHexChar).length

/-- Dangerous pattern 9: `/\/\*.*\*\/.*\b(DROP|DELETE|UPDATE|UNION|SELECT)\b/gi`. -/
def dangerCommentKwAt (l : List Char) : Bool :=
  (do
    let (_, r1) ← matchCi (cs "/*") l
    let r2 ← seekOnDots (fun u => match matchCi (cs "*/") u with
        | some pr => some pr.2
        | none => none) r1
    if seekWordOnDots (fun p u =>
        (wordBoundedCiAt (cs "drop") p u).isSome ||
        (wordBoundedCiAt (cs "delete") p u).isSome ||
        (wordBoundedCiAt (cs "update") p u).isSome ||
        (wordBoundedCiAt (cs "union") p u).isSome ||
        (wordBoundedCiAt (cs "select") p u).isSome) (some '/') r2
    then some () else none).isSome

/-- Disjunction of the `DANGEROUS_SQL_PATTERNS` tests. -/
def hasDangerousPatterns (l : List Char) : Bool :=
  scanExistsP (fun _ u => dangerStackedAt u) none l ||
  scanExistsP (fun _ u => dangerInsertAt u) none l ||
  scanExistsP dangerUnionAt none l ||
  scanExistsP (fun _ u => dangerScriptAt u) none l ||
  dangerShell l ||
  scanExistsP (fun _ u => dangerAmpAt u) none l ||
  scanExistsP (fun _ u => dangerTraversalAt u) none l ||
  scanExistsP (fun _ u => dangerHexAt u) none l ||
  scanExistsP (fun _ u => dangerCommentKwAt u) none l

/-- Malformed pattern 1: `/\({10,}/g` — ten or more consecutive opening
parentheses. -/
def malformedParens (l : List Char) : Bool :=
  containsSub l (cs "((((((((((")

/-- Malformed pattern 2: `/CREATE\s+TABLE\s+\w+\s*;?\s*$/gi` (the `$` anchors
at the very end of the input, there is no `m` flag). -/
def malformedNoParensAt (l : List Char) : Bool :=
  (do
    let (_, r1) ← matchCi (cs "create") l
    let (_, r2) ← wsSome r1
    let (_, r3) ← matchCi (cs "table") r2
    let (_, r4) ← wsSome r3
    let (_, r5) ← wordSome r4
    let r6 := (wsMany r5).2
    let r7 := match oneChar ';' r6 with
      | some (_, r) => r
      | none => r6
    let r8 := (wsMany r7).2
    if r8.isEmpty then some () else none).isSome

/-- The combined `MALFORMED_SQL_PATTERNS` test. -/
def hasMalformedPatterns (l : List Char) : Bool :=
  malformedParens l || scanExistsP (fun _ u => malformedNoParensAt u) none l

/-- The delimiter scan of `hasUnmatchedDelimiters` (validation.ts lines
70-109), translated state for state. -/
def unmatchedGo : List Char → Option Char → Nat → Bool → Bool → Bool → Bool
  | [], _, depth, inS, inD, inB => !(depth = 0) || inS || inD || inB
  | c :: rest, prev, depth, inS, inD, inB =>
    if prev = some bsChar then unmatchedGo rest (some c) depth inS inD inB
    else
      let inS2 := if c = sqChar && !inD && !inB then !inS else inS
      let inD2 := if c = dqChar && !inS && !inB then !inD else inD
      let inB2 := if c = bqChar && !inS && !inD then !inB else inB
      if !inS2 && !inD2 && !inB2 then
        if c = '(' then unmatchedGo rest (some c) (depth + 1) inS2 inD2 inB2
        else if c = ')' then
          match depth with
          | 0 => true
          | d + 1 => unmatchedGo rest (some c) d inS2 inD2 inB2
        else unmatchedGo rest (some c) depth inS2 inD2 inB2
      else unmatchedGo rest (some c) depth inS2 inD2 inB2

/-- `hasUnmatchedDelimiters(sql)`. -/
def hasUnmatchedDelimiters (l : List Char) : Bool :=
  unmatchedGo l none 0 false false false

/-- The control-character class `[\x00-\x08\x0B\x0C\x0E-\x1F\x7F]`. -/
def isCtrlChar (c : Char) : Bool :=
  c.toNat ≤ 8 || c.toNat = 11 || c.toNat = 12 ||
  (14 ≤ c.toNat && c.toNat ≤ 31) || c.toNat = 127

/-- The `/CREATE\s+TABLE/gi` structural test. -/
def hasCreateTableRe (l : List Char) : Bool :=
  scanExistsP (fun _ u =>
    (do
      let (_, r1) ← matchCi (cs "create") u
      let (_, r2) ← wsSome r1
      let (_, _) ← matchCi (cs "table") r2
      pure ()).isSome) none l

/-- `validateSqlInput` (validation.ts lines 117-169) with the default limits.
The `> length * 0.01` float comparison on the control-character count is
modelled exactly at integer points as `100 * count > length`. -/
def validateSqlInput (l : List Char) : Except SQLParseErr Unit :=
  if l.length = 0 then .error ⟨"SQL input cannot be empty"⟩
  else if 50 * 1024 * 1024 < l.length then .error ⟨"SQL input too large"⟩
  else if hasDangerousPatterns l then
    .error ⟨"SQL input contains potentially dangerous patterns"⟩
  else if hasMalformedPatterns l then
    .error ⟨"SQL input appears to be malformed or incomplete"⟩
  else if hasUnmatchedDelimiters l then
    .error ⟨"SQL input has unmatched parentheses, quotes, or backticks"⟩
  else if l.length < 100 * (l.filter isCtrlChar).length then
    .error ⟨"SQL input contains excessive control characters"⟩
  else if !hasCreateTableRe l then
    .error ⟨"SQL input must contain at least one CREATE TABLE statement"⟩
  else .ok ()

/-- One pass of `replace(/\s{4,}/g, ' ')`: a maximal whitespace run of length
at least four becomes a single space. -/
def collapseWsF : Nat → List Char → List Char
  | 0, l => l
  | _, [] => []
  | fuel + 1, c :: rest =>
    if isJsSpace c then
      let run := (c :: rest).takeWhile isJsSpace
      (if 4 ≤ run.length then [' '] else run) ++ collapseWsF fuel (rest.dropWhile isJsSpace)
    else c :: collapseWsF fuel rest

/-- `replace(/\r\n/g, '\n')` followed by `replace(/\r/g, '\n')`, fused into a
single equivalent pass (fuel-bounded; `length + 1` always suffices). -/
def fixCrF : Nat → List Char → List Char
  | 0, l => l
  | _, [] => []
  | fuel + 1, c :: rest =>
    if c = Char.ofNat 13 then
      match rest with
      | n :: r2 =>
        if n = Char.ofNat 10 then Char.ofNat 10 :: fixCrF fuel r2
        else Char.ofNat 10 :: fixCrF fuel (n :: r2)
      | [] => [Char.ofNat 10]
    else c :: fixCrF fuel rest

/-- `sanitizeSqlInput` (validation.ts lines 176-196): remove null bytes,
collapse long whitespace runs, strip control characters, normalize line
endings, trim. -/
def sanitizeSqlInput (l : List Char) : List Char :=
  if l.isEmpty then []
  else
    let s1 := l.filter (fun c => !(c.toNat = 0))
    let s2 := collapseWsF (s1.length + 1) s1
    let s3 := s2.filter (fun c => !isCtrlChar c)
    trimL (fixCrF (s3.length + 1) s3)

end Validation

namespace SQLParser

open Validation

/-- One successful match of `CREATE_TABLE_REGEX`: the table name (first
non-empty of groups 1-3), the field-list capture (group 4), the full matched
text (`match[0]`) and the input remaining after the match. -/
structure CTMatch where
  name : List Char
  fields : List Char
  whole : List Char
  rest : List Char
  deriving Repr, DecidableEq

/-- The table-name alternation `(?:`([^`]+)`|"([^"]+)"|(\w+))`: returns
(name, consumed, remainder). -/
def matchTableName (l : List Char) : Option (List Char × List Char × List Char) :=
  match l with
  | [] => none
  | c :: rest =>
    if c = bqChar then
      let inner := rest.takeWhile (fun x => !(x = bqChar))
      match rest.dropWhile (fun x => !(x = bqChar)) with
      | c2 :: r3 => if inner.isEmpty then none else some (inner, c :: inner ++ [c2], r3)
      | [] => none
    else if c = dqChar then
      let inner := rest.takeWhile (fun x => !(x = dqChar))
      match rest.dropWhile (fun x => !(x = dqChar)) with
      | c2 :: r3 => if inner.isEmpty then none else some (inner, c :: inner ++ [c2], r3)
      | [] => none
    else
      match wordSome l with
      | some (w, r) => some (w, w, r)
      | none => none

/-- The optional `(?:IF\s+NOT\s+EXISTS\s+)?` group (greedy: taken whenever it
matches, which can never make an otherwise-successful match fail here because
a table name cannot start with whitespace). -/
def matchIfNotExists (l : List Char) : List Char × List Char :=
  match (do
    let (a, r1) ← matchCi (cs "if") l
    let (b, r2) ← wsSome r1
    let (c, r3) ← matchCi (cs "not") r2
    let (d, r4) ← wsSome r3
    let (e, r5) ← matchCi (cs "exists") r4
    let (f, r6) ← wsSome r5
    pure (a ++ b ++ c ++ d ++ e ++ f, r6)) with
  | some p => p
  | none => ([], l)

/-- Run an optional trailing-option matcher: consume on success, nothing on
failure. -/
def tryOpt (f : List Char → Option (List Char × List Char)) (l : List Char) :
    List Char × List Char :=
  match f l with
  | some p => p
  | none => ([], l)

/-- `(?:\s*ENGINE\s*=\s*\w+)?`. -/
def engineOpt (l : List Char) : List Char × List Char :=
  tryOpt (fun u => do
    let (a, r1) := wsMany u
    let (b, r2) ← matchCi (cs "engine") r1
    let (c, r3) := wsMany r2
    let (d, r4) ← oneChar '=' r3
    let (e, r5) := wsMany r4
    let (f, r6) ← wordSome r5
    pure (a ++ b ++ c ++ d ++ e ++ f, r6)) l

/-- `(?:\s*DEFAULT\s+CHARSET\s*=\s*[\w\-]+)?`. -/
def charsetOpt (l : List Char) : List Char × List Char :=
  tryOpt (fun u => do
    let (a, r1) := wsMany u
    let (b, r2) ← matchCi (cs "default") r1
    let (c, r3) ← wsSome r2
    let (d, r4) ← matchCi (cs "charset") r3
    let (e, r5) := wsMany r4
    let (f, r6) ← oneChar '=' r5
    let (g, r7) := wsMany r6
    let (h, r8) ← manySome (fun x => isWordChar x || x = '-') r7
    pure (a ++ b ++ c ++ d ++ e ++ f ++ g ++ h, r8)) l

/-- `(?:\s*COLLATE\s*=\s*[\w_\-]+)?`. -/
def collateOpt (l : List Char) : List Char × List Char :=
  tryOpt (fun u => do
    let (a, r1) := wsMany u
    let (b, r2) ← matchCi (cs "collate") r1
    let (c, r3) := wsMany r2
    let (d, r4) ← oneChar '=' r3
    let (e, r5) := wsMany r4
    let (f, r6) ← manySome (fun x => isWordChar x || x = '-') r5
    pure (a ++ b ++ c ++ d ++ e ++ f, r6)) l

/-- `(?:\s*AUTO_INCREMENT\s*=\s*\d+)?`. -/
def autoIncOpt (l : List Char) : List Char × List Char :=
  tryOpt (fun u => do
    let (a, r1) := wsMany u
    let (b, r2) ← matchCi (cs "auto_increment") r1
    let (c, r3) := wsMany r2
    let (d, r4) ← oneChar '=' r3
    let (e, r5) := wsMany r4
    let (f, r6) ← manySome isDigitChar r5
    pure (a ++ b ++ c ++ d ++ e ++ f, r6)) l

/-- `(?:\s*COMMENT\s*=\s*'[^']*')?`. -/
def commentEqOpt (l : List Char) : List Char × List Char :=
  tryOpt (fun u => do
    let (a, r1) := wsMany u
    let (b, r2) ← matchCi (cs "comment") r1
    let (c, r3) := wsMany r2
    let (d, r4) ← oneChar '=' r3
    let (e, r5) := wsMany r4
    let (f, r6) ← oneChar sqChar r5
    let g := r6.takeWhile (fun x => !(x = sqChar))
    let r7 := r6.dropWhile (fun x => !(x = sqChar))
    let (h, r8) ← oneChar sqChar r7
    pure (a ++ b ++ c ++ d ++ e ++ f ++ g ++ h, r8)) l

/-- Attempt `CREATE_TABLE_REGEX` (src/unnamed/part_003 lines 8-9) at the head
of the input. -/
def matchCreateTableAt (l : List Char) : Option CTMatch := do
  let (e1, r1) ← matchCi (cs "create") l
  let (e2, r2) ← wsSome r1
  let (e3, r3) ← matchCi (cs "table") r2
  let (e4, r4) ← wsSome r3
  let (e5, r5) := matchIfNotExists r4
  let (nm, e6, r6) ← matchTableName r5
  let (e7, r7) := wsMany r6
  let (e8, r8) ← oneChar '(' r7
  let (fieldsCap, r9) ← captureFields false r8
  let (t1, r10) := engineOpt r9
  let (t2, r11) := charsetOpt r10
  let (t3, r12) := collateOpt r11
  let (t4, r13) := autoIncOpt r12
  let (t5, r14) := commentEqOpt r13
  let (t6, r15) := tryOpt (oneChar ';') r14
  pure ⟨nm, fieldsCap,
    e1 ++ e2 ++ e3 ++ e4 ++ e5 ++ e6 ++ e7 ++ e8 ++ fieldsCap ++ [')'] ++
      t1 ++ t2 ++ t3 ++ t4 ++ t5 ++ t6, r15⟩

/-- The global `exec` loop over `CREATE_TABLE_REGEX`: leftmost matches in
order, each search resuming after the previous match (`lastIndex`).  Fuel is
an upper bound on the scan steps; `length + 1` always suffices. -/
def scanAllF : Nat → List Char → List CTMatch
  | 0, _ => []
  | _, [] => []
  | fuel + 1, c :: rest =>
    match matchCreateTableAt (c :: rest) with
    | some m => m :: scanAllF fuel m.rest
    | none => scanAllF fuel rest

/-- All `CREATE_TABLE_REGEX` matches of a text. -/
def scanAll (l : List Char) : List CTMatch := scanAllF (l.length + 1) l

/-- A raw table definition produced by `SQLParser.parse`. -/
structure RawTableDefinition where
  name : List Char
  fieldsString : List Char
  lineNumber : Nat
  originalMatch : List Char
  deriving Repr, DecidableEq

/-- Leftmost occurrence index of `sub` in `l` (`String.prototype.indexOf`). -/
def indexOfSub (l sub : List Char) : Option Nat :=
  match l with
  | [] => if sub.isEmpty then some 0 else none
  | _ :: rest =>
    if startsList sub l then some 0
    else (indexOfSub rest sub).map (· + 1)

/-- `calculateLineNumber` (part_003 lines 107-115): 1-based newline count
before the position. -/
def calculateLineNumber (sql : List Char) (pos : Nat) : Nat :=
  if sql.length ≤ pos then 1
  else ((sql.take pos).filter (fun c => c = Char.ofNat 10)).length + 1

/-- Build one `RawTableDefinition` from a regex match, as in the body of the
`while` loop of `parse` (part_003 lines 31-62). -/
def buildRaw (sql : List Char) (m : CTMatch) : Except SQLParseErr RawTableDefinition :=
  if m.name.isEmpty then
    .error ⟨"Could not extract table name from CREATE TABLE statement"⟩
  else if m.fields.isEmpty then
    .error ⟨"No field definitions found for table"⟩
  else
    let lineNumber := match indexOfSub sql m.name with
      | some pos => calculateLineNumber sql pos
      | none => 1
    .ok ⟨trimL m.name, trimL m.fields, lineNumber, m.whole⟩

/-- Process the match list in order, failing on the first bad match. -/
def buildRawAll (sql : List Char) : List CTMatch → Except SQLParseErr (List RawTableDefinition)
  | [] => .ok []
  | m :: ms =>
    match buildRaw sql m with
    | .error e => .error e
    | .ok t =>
      match buildRawAll sql ms with
      | .error e => .error e
      | .ok ts => .ok (t :: ts)

/-- `SQLParser.parse` (part_003 lines 17-69): validate, sanitize, scan for
CREATE TABLE statements, and fail when none are found. -/
def parse (sql : List Char) : Except SQLParseErr (List RawTableDefinition) :=
  match validateSqlInput sql with
  | .error e => .error e
  | .ok _ =>
    let sanitized := sanitizeSqlInput sql
    match buildRawAll sql (scanAll sanitized) with
    | .error e => .error e
    | .ok tables =>
      if tables.isEmpty then
        .error ⟨"No CREATE TABLE statements found in the provided SQL"⟩
      else .ok tables

/-- `SQLParser.hasCreateTableStatements` (part_003 lines 86-99): false on
empty input, otherwise the `test` of the same regex on the sanitized text.
The function is total (the source's catch-all returns false). -/
def hasCreateTableStatements (sql : List Char) : Bool :=
  if sql.isEmpty then false
  else !(scanAll (sanitizeSqlInput sql)).isEmpty

end SQLParser

/-- Field-level constraint kinds (types/index.ts `FieldConstraintType`). -/
inductive FieldConstraintType where
  | PRIMARY_KEY
  | UNIQUE
  | FOREIGN_KEY
  | CHECK
  | AUTO_INCREMENT
  deriving Repr, DecidableEq

/-- A field-level constraint (types/index.ts `FieldConstraint`). -/
structure FieldConstraint where
  type : FieldConstraintType
  value : Option (List Char) := none
  deriving Repr, DecidableEq

/-- A parsed field (types/index.ts `FieldSchema`). -/
structure FieldSchema where
  name : List Char
  type : List Char
  nullable : Bool
  defaultValue : Option (List Char)
  constraints : List FieldConstraint
  comment : Option (List Char)
  deriving Repr, DecidableEq

namespace FieldParser

open Validation SQLParser

/-- Case-insensitive prefix test (a `^pat` anchor). -/
def ciStarts (pat l : List Char) : Bool := (matchCi pat l).isSome

/-- Prefix test for `^W1\s+W2`. -/
def ciStartsPair (w1 w2 l : List Char) : Bool :=
  (do
    let (_, r1) ← matchCi w1 l
    let (_, r2) ← wsSome r1
    let (_, _) ← matchCi w2 r2
    pure ()).isSome

/-- `\bW1\s+W2\b` at the current position. -/
def wordPairCiAt (w1 w2 : List Char) (prev : Option Char) (l : List Char) : Bool :=
  if (match prev with | some p => isWordChar p | none => false) then false
  else
    (do
      let (_, r1) ← matchCi w1 l
      let (_, r2) ← wsSome r1
      let (_, r3) ← matchCi w2 r2
      match r3 with
      | [] => some ()
      | c :: _ => if isWordChar c then none else some ()).isSome

/-- Leftmost match of a position-wise pattern with captured result. -/
def scanFirstP {α : Type} (f : Option Char → List Char → Option α) :
    Option Char → List Char → Option α
  | prev, [] => f prev []
  | prev, c :: rest =>
    match f prev (c :: rest) with
    | some x => some x
    | none => scanFirstP f (some c) rest

/-- `CONSTRAINT_PATTERNS.NOT_NULL`: `/\bNOT\s+NULL\b/i.test`. -/
def testNotNull (l : List Char) : Bool :=
  scanExistsP (wordPairCiAt (cs "not") (cs "null")) none l

/-- `CONSTRAINT_PATTERNS.PRIMARY_KEY`: `/\bPRIMARY\s+KEY\b/i.test`. -/
def testPrimaryKey (l : List Char) : Bool :=
  scanExistsP (wordPairCiAt (cs "primary") (cs "key")) none l

/-- `CONSTRAINT_PATTERNS.UNIQUE`: `/\bUNIQUE\b/i.test`. -/
def testUnique (l : List Char) : Bool :=
  scanExistsP (fun p u => (wordBoundedCiAt (cs "unique") p u).isSome) none l

/-- `CONSTRAINT_PATTERNS.AUTO_INCREMENT`: `/\bAUTO_INCREMENT\b/i.test`. -/
def testAutoInc (l : List Char) : Bool :=
  scanExistsP (fun p u => (wordBoundedCiAt (cs "auto_increment") p u).isSome) none l

/-- `CONSTRAINT_PATTERNS.FOREIGN_KEY`: `/\bREFERENCES\s+(\w+)\s*\(([^)]+)\)/i`,
returning the two captures. -/
def fkAt (prev : Option Char) (l : List Char) : Option (List Char × List Char) :=
  if (match prev with | some p => isWordChar p | none => false) then none
  else do
    let (_, r1) ← matchCi (cs "references") l
    let (_, r2) ← wsSome r1
    let (tbl, r3) ← wordSome r2
    let r4 := (wsMany r3).2
    let (_, r5) ← oneChar '(' r4
    let colsStr := r5.takeWhile (fun c => !(c = ')'))
    let r6 := r5.dropWhile (fun c => !(c = ')'))
    if colsStr.isEmpty then none
    else do
      let (_, _) ← oneChar ')' r6
      pure (tbl, colsStr)

/-- `CONSTRAINT_PATTERNS.CHECK`: `/\bCHECK\s*\(([^)]+)\)/i`. -/
def checkAt (prev : Option Char) (l : List Char) : Option (List Char) :=
  if (match prev with | some p => isWordChar p | none => false) then none
  else do
    let (_, r1) ← matchCi (cs "check") l
    let r2 := (wsMany r1).2
    let (_, r3) ← oneChar '(' r2
    let body := r3.takeWhile (fun c => !(c = ')'))
    let r4 := r3.dropWhile (fun c => !(c = ')'))
    if body.isEmpty then none
    else do
      let (_, _) ← oneChar ')' r4
      pure body

/-- The comment-body scan `[^'"\\]*(?:\\.[^'"\\]*)*` followed by a closing
quote (either kind): returns the captured body and the remainder.  `\\.`
requires a non-line-terminator after the backslash; a dangling backslash makes
every backtrack fail, hence `none`. -/
def commentBody : List Char → Option (List Char × List Char)
  | [] => none
  | c :: rest =>
    if c = sqChar || c = dqChar then some ([], rest)
    else if c = bsChar then
      match rest with
      | d :: r2 =>
        if dotChar d then
          match commentBody r2 with
          | some pr => some (c :: d :: pr.1, pr.2)
          | none => none
        else none
      | [] => none
    else
      match commentBody rest with
      | some pr => some (c :: pr.1, pr.2)
      | none => none

/-- `CONSTRAINT_PATTERNS.COMMENT`:
`/\bCOMMENT\s+['"]([^'"\\]*(?:\\.[^'"\\]*)*)['"]/i`. -/
def commentAt (prev : Option Char) (l : List Char) : Option (List Char) :=
  if (match prev with | some p => isWordChar p | none => false) then none
  else do
    let (_, r1) ← matchCi (cs "comment") l
    let (_, r2) ← wsSome r1
    match r2 with
    | q :: r3 =>
      if q = sqChar || q = dqChar then (commentBody r3).map (fun pr => pr.1)
      else none
    | [] => none

/-- `replace` of the two-character sequence `a b` by `t`, one global pass. -/
def replacePair (a b t : Char) : List Char → List Char
  | [] => []
  | [c] => [c]
  | c :: d :: rest =>
    if c = a && d = b then t :: replacePair a b t rest
    else c :: replacePair a b t (d :: rest)

/-- `extractComment` (field-parser.ts lines 344-351): first COMMENT match,
with escaped quotes unescaped; empty capture means no comment. -/
def extractComment (l : List Char) : Option (List Char) :=
  match scanFirstP commentAt none l with
  | some captured =>
    if captured.isEmpty then none
    else some (replacePair bsChar dqChar dqChar (replacePair bsChar sqChar sqChar captured))
  | none => none

/-- The stop test of the DEFAULT scanner at a whitespace boundary
(field-parser.ts line 304): `^(ON\s+UPDATE|COMMENT|NOT\s+NULL|NULL|`
`PRIMARY\s+KEY|UNIQUE|AUTO_INCREMENT|,|$)/i` on the trimmed remainder. -/
def stopKwWs (u : List Char) : Bool :=
  ciStartsPair (cs "on") (cs "update") u || ciStarts (cs "comment") u ||
  ciStartsPair (cs "not") (cs "null") u || ciStarts (cs "null") u ||
  ciStartsPair (cs "primary") (cs "key") u || ciStarts (cs "unique") u ||
  ciStarts (cs "auto_increment") u || startsList (cs ",") u || u.isEmpty

/-- The stop test after a closed parenthesised value (field-parser.ts line
295): same list without the ON UPDATE alternative. -/
def stopKwParen (u : List Char) : Bool :=
  ciStarts (cs "comment") u || ciStartsPair (cs "not") (cs "null") u ||
  ciStarts (cs "null") u || ciStartsPair (cs "primary") (cs "key") u ||
  ciStarts (cs "unique") u || ciStarts (cs "auto_increment") u ||
  startsList (cs ",") u || u.isEmpty

/-- Does the trimmed remainder start with `ON\s+UPDATE`? -/
def onUpdStarts (u : List Char) : Bool := ciStartsPair (cs "on") (cs "update") u

/-- The capture of `/^ON\s+UPDATE\s+(\S+)/i`. -/
def onUpdCapture (u : List Char) : Option (List Char) := do
  let (_, r1) ← matchCi (cs "on") u
  let (_, r2) ← wsSome r1
  let (_, r3) ← matchCi (cs "update") r2
  let (_, r4) ← wsSome r3
  let (tok, _) ← manySome (fun c => !isJsSpace c) r4
  pure tok

/-- The character-by-character DEFAULT-value scan (field-parser.ts lines
260-326), with quote state, paren counter (a JS number, hence `Int`) and the
previous character for the escape test. -/
def edvLoop : List Char → Bool → Option Char → Int → List Char → Char → List Char
  | [], _, _, _, acc, _ => acc
  | c :: rest, inQ, qc, depth, acc, prev =>
    if !inQ && (c = dqChar || c = sqChar) then
      edvLoop rest true (some c) depth (acc ++ [c]) c
    else if inQ && some c = qc && !(prev = bsChar) then
      edvLoop rest false none depth (acc ++ [c]) c
    else if inQ then edvLoop rest inQ qc depth (acc ++ [c]) c
    else if c = '(' then edvLoop rest false qc (depth + 1) (acc ++ [c]) c
    else if c = ')' then
      let depth2 := depth - 1
      let acc2 := acc ++ [c]
      if depth2 = 0 && acc2.contains '(' then
        if stopKwParen (trimL rest) then acc2
        else edvLoop rest false qc depth2 acc2 c
      else edvLoop rest false qc depth2 acc2 c
    else if depth = 0 then
      if isJsSpace c then
        let remaining := trimL (c :: rest)
        if stopKwWs remaining then
          if onUpdStarts remaining then
            match onUpdCapture remaining with
            | some tok => acc ++ cs " ON UPDATE " ++ tok
            | none => edvLoop rest false qc depth acc c
          else acc
        else edvLoop rest false qc depth (acc ++ [c]) c
      else edvLoop rest false qc depth (acc ++ [c]) c
    else edvLoop rest false qc depth (acc ++ [c]) c

/-- Leftmost `\bDEFAULT\s+` (field-parser.ts line 255): returns the last
consumed whitespace character (the scanner's initial previous character) and
the remainder where the value scan starts. -/
def defaultFinderAt (prev : Option Char) (l : List Char) : Option (Char × List Char) :=
  if (match prev with | some p => isWordChar p | none => false) then none
  else do
    let (_, r1) ← matchCi (cs "default") l
    let (w, r2) ← wsSome r1
    pure (w.getLastD ' ', r2)

/-- Quote stripping for simple values (field-parser.ts lines 331-334): both
ends the same quote and no space character strictly inside. -/
def stripSimpleQuotes (v : List Char) : List Char :=
  let inner := (v.drop 1).dropLast
  if v.head? = some sqChar && v.getLast? = some sqChar && !(inner.contains ' ') then inner
  else if v.head? = some dqChar && v.getLast? = some dqChar && !(inner.contains ' ') then inner
  else v

/-- `extractDefaultValue` (field-parser.ts lines 253-337). -/
def extractDefaultValue (l : List Char) : Option (List Char) :=
  match scanFirstP defaultFinderAt none l with
  | none => none
  | some (prevWs, rem) =>
    some (stripSimpleQuotes (trimL (edvLoop rem false none 0 [] prevWs)))

/-- `determineNullability` (field-parser.ts lines 233-246). -/
def determineNullability (l : List Char) : Bool :=
  if testNotNull l then false
  else if testPrimaryKey l then false
  else true

/-- `parseConstraints` (field-parser.ts lines 192-226). -/
def parseConstraints (l : List Char) : List FieldConstraint :=
  (if testPrimaryKey l then [⟨.PRIMARY_KEY, none⟩] else []) ++
  (if testUnique l then [⟨.UNIQUE, none⟩] else []) ++
  (if testAutoInc l then [⟨.AUTO_INCREMENT, none⟩] else []) ++
  (match scanFirstP fkAt none l with
   | some (tbl, colsStr) => [⟨.FOREIGN_KEY, some (tbl ++ '(' :: colsStr ++ [')'])⟩]
   | none => []) ++
  (match scanFirstP checkAt none l with
   | some body => if body.isEmpty then [] else [⟨.CHECK, some body⟩]
   | none => [])

/-- `isTableLevelConstraint` (field-parser.ts lines 174-185). -/
def isTableLevelConstraint (l : List Char) : Bool :=
  let t := (trimL l).map upperC
  startsList (cs "PRIMARY KEY") t || startsList (cs "FOREIGN KEY") t ||
  startsList (cs "UNIQUE") t || startsList (cs "INDEX") t ||
  startsList (cs "KEY") t || startsList (cs "CONSTRAINT") t ||
  startsList (cs "CHECK") t

/-- One iteration of the type group
`\w+(?:\([^)]*\))?(?:\s*\[\])?(?:\s+(?:UNSIGNED|SIGNED|ZEROFILL))*`
(without the modifier star, handled by `modsLoop`). -/
def typeTokenOnce (l : List Char) : Option (List Char × List Char) := do
  let (a, r1) ← wordSome l
  let (b, r2) := tryOpt (fun u => do
      let (x, u1) ← oneChar '(' u
      let y := u1.takeWhile (fun c => !(c = ')'))
      let u2 := u1.dropWhile (fun c => !(c = ')'))
      let (z, u3) ← oneChar ')' u2
      pure (x ++ y ++ z, u3)) r1
  let (c, r3) := tryOpt (fun u => do
      let (x, u1) := wsMany u
      let (y, u2) ← oneChar '[' u1
      let (z, u3) ← oneChar ']' u2
      pure (x ++ y ++ z, u3)) r2
  pure (a ++ b ++ c, r3)

/-- The modifier star `(?:\s+(?:UNSIGNED|SIGNED|ZEROFILL))*`, greedy. -/
def modsLoop : Nat → List Char → List Char × List Char
  | 0, l => ([], l)
  | fuel + 1, l =>
    match (do
      let (a, r1) ← wsSome l
      let (b, r2) ← matchCi (cs "unsigned") r1 <|> matchCi (cs "signed") r1 <|>
        matchCi (cs "zerofill") r1
      pure (a ++ b, r2) : Option (List Char × List Char)) with
    | some (e, r) =>
      let (e2, r2) := modsLoop fuel r
      (e ++ e2, r2)
    | none => ([], l)

/-- The full type group `(...)+` of `FIELD_DEFINITION_REGEX`. -/
def typeTokens : Nat → List Char → Option (List Char × List Char)
  | 0, _ => none
  | fuel + 1, l => do
    let (a, r1) ← typeTokenOnce l
    let (b, r2) := modsLoop (r1.length + 1) r1
    match typeTokens fuel r2 with
    | some (e, r) => pure (a ++ b ++ e, r)
    | none => pure (a ++ b, r2)

/-- `FIELD_DEFINITION_REGEX` (field-parser.ts line 8):
`^\s*(?:`name`|"name"|name)\s+(type)\s*(.*?)$`.  Returns (name, type,
constraint remainder).  The final `(.*?)$` cannot cross a line terminator, so
a match fails when one remains in the tail. -/
def fieldDefMatch (l : List Char) : Option (List Char × List Char × List Char) := do
  let r0 := (wsMany l).2
  let (nm, _, r1) ← matchTableName r0
  let (_, r2) ← wsSome r1
  let (ft, r3) ← typeTokens (r2.length + 1) r2
  let rest5 := r3.dropWhile isJsSpace
  if rest5.any (fun c => !dotChar c) then none else pure (nm, ft, rest5)

/-- `parseField` (field-parser.ts lines 27-74). -/
def parseField (l : List Char) : Except Validation.SQLParseErr FieldSchema :=
  if l.isEmpty then .error ⟨"Invalid field definition: must be a non-empty string"⟩
  else
    let trimmedDef := trimL l
    if trimmedDef.isEmpty then .error ⟨"Empty field definition"⟩
    else if isTableLevelConstraint trimmedDef then
      .error ⟨"Table-level constraint found where field definition expected"⟩
    else
      match fieldDefMatch trimmedDef with
      | none => .error ⟨"Could not parse field definition"⟩
      | some (nm, ft, rest5) =>
        if nm.isEmpty then .error ⟨"Could not extract field name"⟩
        else if ft.isEmpty then .error ⟨"Could not extract field type"⟩
        else .ok ⟨trimL nm, trimL ft, determineNullability rest5,
          extractDefaultValue rest5, parseConstraints rest5, extractComment rest5⟩

/-- The per-character state update of `splitFieldDefinitions` (field-parser.ts
lines 131-149): quote toggling (with the escape check) and paren depth (a JS
number, `Int`), in that order; returns (inQuotes, quoteChar, parenDepth). -/
def splitStep (c : Char) (prev : Option Char) (inQ : Bool) (qc : Option Char)
    (depth : Int) : Bool × Option Char × Int :=
  let openNow := (c = dqChar || c = sqChar || c = bqChar) && !(prev = some bsChar)
  let inQ2 := if openNow then (if !inQ then true else if some c = qc then false else inQ) else inQ
  let qc2 := if openNow then (if !inQ then some c else if some c = qc then none else qc) else qc
  let depth2 :=
    if !inQ2 then (if c = '(' then depth + 1 else if c = ')' then depth - 1 else depth)
    else depth
  (inQ2, qc2, depth2)

/-- `splitFieldDefinitions` (field-parser.ts lines 120-167), state for
state: previous character, quote state, paren depth, current segment,
finished segments.  A top-level comma pushes the trimmed current segment
(even when empty); at the end the last segment is pushed only if non-blank. -/
def splitGo : List Char → Option Char → Bool → Option Char → Int → List Char →
    List (List Char) → List (List Char)
  | [], _, _, _, _, cur, defs =>
    if (trimL cur).isEmpty then defs else defs ++ [trimL cur]
  | c :: rest, prev, inQ, qc, depth, cur, defs =>
    let st := splitStep c prev inQ qc depth
    if !st.1 && st.2.2 = 0 && c = ',' then
      splitGo rest (some c) st.1 st.2.1 st.2.2 [] (defs ++ [trimL cur])
    else splitGo rest (some c) st.1 st.2.1 st.2.2 (cur ++ [c]) defs

/-- `splitFieldDefinitions(fieldsString)`. -/
def splitFieldDefinitions (l : List Char) : List (List Char) :=
  splitGo l none false none 0 [] []

/-- The loop body of `parseFields` (field-parser.ts lines 89-110). -/
def parseFieldsGo : List (List Char) → Nat → List FieldSchema →
    Except Validation.SQLParseErr (List FieldSchema)
  | [], _, acc => .ok acc
  | seg :: rest, i, acc =>
    let fieldDef := trimL seg
    if fieldDef.isEmpty then parseFieldsGo rest (i + 1) acc
    else if isTableLevelConstraint fieldDef then parseFieldsGo rest (i + 1) acc
    else
      match parseField fieldDef with
      | .ok f => parseFieldsGo rest (i + 1) (acc ++ [f])
      | .error e => .error ⟨"Error parsing field " ++ toString (i + 1) ++ ": " ++ e.msg⟩

/-- `parseFields` (field-parser.ts lines 81-113). -/
def parseFields (l : List Char) : Except Validation.SQLParseErr (List FieldSchema) :=
  if l.isEmpty then .error ⟨"Invalid fields string: must be a non-empty string"⟩
  else parseFieldsGo (splitFieldDefinitions l) 0 []

end FieldParser

/-- Table-level constraint kinds (types/index.ts `TableConstraintType`). -/
inductive TableConstraintType where
  | PRIMARY_KEY
  | FOREIGN_KEY
  | UNIQUE
  | INDEX
  deriving Repr, DecidableEq

/-- A foreign-key reference target. -/
structure TableRef where
  table : List Char
  fields : List (List Char)
  deriving Repr, DecidableEq

/-- A table-level constraint (types/index.ts `TableConstraint`). -/
structure TableConstraint where
  type : TableConstraintType
  fields : List (List Char)
  reference : Option TableRef := none
  deriving Repr, DecidableEq

/-- A complete parsed table (types/index.ts `TableSchema`). -/
structure TableSchema where
  name : List Char
  fields : List FieldSchema
  constraints : List TableConstraint
  deriving Repr, DecidableEq

namespace TableExtractor

open Validation SQLParser FieldParser

/-- `String.prototype.split(',')`. -/
def splitCommas : List Char → List (List Char)
  | [] => [[]]
  | c :: rest =>
    if c = ',' then [] :: splitCommas rest
    else
      match splitCommas rest with
      | s :: ss => (c :: s) :: ss
      | [] => [[c]]

/-- Strip one pair of identical surrounding quotes (backtick, double or
single), as in `parseFieldList` (table-extractor.ts lines 184-189). -/
def stripNameQuotes (v : List Char) : List Char :=
  if (v.head? = some bqChar && v.getLast? = some bqChar) ||
     (v.head? = some dqChar && v.getLast? = some dqChar) ||
     (v.head? = some sqChar && v.getLast? = some sqChar) then (v.drop 1).dropLast
  else v

/-- `parseFieldList` (table-extractor.ts lines 175-193). -/
def parseFieldList (l : List Char) : List (List Char) :=
  ((splitCommas l).map (fun f => trimL (stripNameQuotes (trimL f)))).filter
    (fun f => !f.isEmpty)

/-- Try the prefix alternation `(?:^|\s|,)` in regex order: the `^` anchor
(only at the very start, there is no `m` flag), a whitespace character, or a
comma.  `before` is the reversed text preceding the current position;
the continuation receives the updated reversed-preceding text and suffix. -/
def withPre {α : Type} (before l : List Char) (k : List Char → List Char → Option α) :
    Option α :=
  (if before.isEmpty then k before l else none) <|>
  (match l with
   | c :: rest => if isJsSpace c then k (c :: before) rest else none
   | [] => none) <|>
  (match l with
   | c :: rest => if c = ',' then k (c :: before) rest else none
   | [] => none)

/-- The optional `CONSTRAINT\s+(\w+)\s+` group; returns (name, rest). -/
def constraintNameOpt (u : List Char) : Option (List Char × List Char) := do
  let (_, r1) ← matchCi (cs "constraint") u
  let (_, r2) ← wsSome r1
  let (nm, r3) ← wordSome r2
  let (_, r4) ← wsSome r3
  pure (nm, r4)

/-- `(\w+)\s*\(([^)]+)\)` — not used alone; here `\(([^)]+)\)` only. -/
def parenCapture (u : List Char) : Option (List Char × List Char) := do
  let (_, r1) ← oneChar '(' u
  let body := r1.takeWhile (fun c => !(c = ')'))
  let r2 := r1.dropWhile (fun c => !(c = ')'))
  if body.isEmpty then none
  else do
    let (_, r3) ← oneChar ')' r2
    pure (body, r3)

/-- Core of `TABLE_CONSTRAINT_PATTERNS.PRIMARY_KEY` after the optional
CONSTRAINT group: `PRIMARY\s+KEY\s*\(([^)]+)\)`. -/
def pkCore (u : List Char) : Option (List Char × List Char) := do
  let (_, r1) ← matchCi (cs "primary") u
  let (_, r2) ← wsSome r1
  let (_, r3) ← matchCi (cs "key") r2
  let r4 := (wsMany r3).2
  parenCapture r4

/-- `TABLE_CONSTRAINT_PATTERNS.PRIMARY_KEY` at one position; yields the
column capture and the remainder after the match. -/
def pkAt (before l : List Char) : Option (List Char × List Char) :=
  withPre before l (fun _ u0 =>
    let u1 := (wsMany u0).2
    match constraintNameOpt u1 with
    | some (_, u2) => pkCore u2 <|> pkCore u1
    | none => pkCore u1)

/-- Core of `TABLE_CONSTRAINT_PATTERNS.FOREIGN_KEY`:
`FOREIGN\s+KEY\s*\(([^)]+)\)\s+REFERENCES\s+(\w+)\s*\(([^)]+)\)`. -/
def fkCore (u : List Char) : Option ((List Char × List Char × List Char) × List Char) := do
  let (_, r1) ← matchCi (cs "foreign") u
  let (_, r2) ← wsSome r1
  let (_, r3) ← matchCi (cs "key") r2
  let r4 := (wsMany r3).2
  let (colsStr, r5) ← parenCapture r4
  let (_, r6) ← wsSome r5
  let (_, r7) ← matchCi (cs "references") r6
  let (_, r8) ← wsSome r7
  let (tbl, r9) ← wordSome r8
  let r10 := (wsMany r9).2
  let (refStr, r11) ← parenCapture r10
  pure ((colsStr, tbl, refStr), r11)

/-- `TABLE_CONSTRAINT_PATTERNS.FOREIGN_KEY` at one position. -/
def fkTableAt (before l : List Char) :
    Option ((List Char × List Char × List Char) × List Char) :=
  withPre before l (fun _ u0 =>
    let u1 := (wsMany u0).2
    match constraintNameOpt u1 with
    | some (_, u2) => fkCore u2 <|> fkCore u1
    | none => fkCore u1)

/-- Core of `TABLE_CONSTRAINT_PATTERNS.UNIQUE`:
`UNIQUE(?:\s+KEY\s+(\w+))?\s*\(([^)]+)\)`. -/
def uniqueCore (u : List Char) : Option (List Char × List Char) := do
  let (_, r1) ← matchCi (cs "unique") u
  let withKey : Option (List Char × List Char) := do
    let (_, s1) ← wsSome r1
    let (_, s2) ← matchCi (cs "key") s1
    let (_, s3) ← wsSome s2
    let (_, s4) ← wordSome s3
    let s5 := (wsMany s4).2
    parenCapture s5
  withKey <|> parenCapture ((wsMany r1).2)

/-- `TABLE_CONSTRAINT_PATTERNS.UNIQUE` at one position. -/
def uniqueAt (before l : List Char) : Option (List Char × List Char) :=
  withPre before l (fun _ u0 =>
    let u1 := (wsMany u0).2
    match constraintNameOpt u1 with
    | some (_, u2) => uniqueCore u2 <|> uniqueCore u1
    | none => uniqueCore u1)

/-- Does the reversed preceding text end in `UNIQUE\s` (the negative
lookbehind of the INDEX pattern, which then fails)? -/
def endsWithUniqueWs (beforeRev : List Char) : Bool :=
  match beforeRev with
  | w :: rest => isJsSpace w && (matchCi (cs "euqinu") rest).isSome
  | [] => false

/-- Core of `TABLE_CONSTRAINT_PATTERNS.INDEX` after the prefix and `\s*`:
`(?:(?<!UNIQUE\s)KEY|INDEX)\s+(\w+)\s*\(([^)]+)\)`. -/
def indexCore (beforeRev u : List Char) : Option ((List Char × List Char) × List Char) := do
  let r1 ←
    (match matchCi (cs "key") u with
     | some (_, r) => if endsWithUniqueWs beforeRev then none else some r
     | none => none) <|>
    (match matchCi (cs "index") u with
     | some (_, r) => some r
     | none => none)
  let (_, r2) ← wsSome r1
  let (nm, r3) ← wordSome r2
  let r4 := (wsMany r3).2
  let (colsStr, r5) ← parenCapture r4
  pure ((nm, colsStr), r5)

/-- `TABLE_CONSTRAINT_PATTERNS.INDEX` at one position. -/
def indexAt (before l : List Char) : Option ((List Char × List Char) × List Char) :=
  withPre before l (fun b1 u0 =>
    let w := u0.takeWhile isJsSpace
    let u1 := u0.dropWhile isJsSpace
    indexCore (w.reverse ++ b1) u1)

/-- The global `exec` loop shared by the four table-constraint patterns
(table-extractor.ts lines 104-165): leftmost matches, each search resuming
after the end of the previous match. -/
def gscanF {α : Type} (matchAt : List Char → List Char → Option (α × List Char)) :
    Nat → List Char → List Char → List α
  | 0, _, _ => []
  | fuel + 1, before, l =>
    match matchAt before l with
    | some (x, rest) =>
      x :: gscanF matchAt fuel ((l.take (l.length - rest.length)).reverse ++ before) rest
    | none =>
      match l with
      | [] => []
      | c :: rest => gscanF matchAt fuel (c :: before) rest

/-- Run a global pattern over a whole field-list text. -/
def gscan {α : Type} (matchAt : List Char → List Char → Option (α × List Char))
    (l : List Char) : List α :=
  gscanF matchAt (l.length + 1) [] l

/-- `extractTableConstraints` (table-extractor.ts lines 101-168): four
independent global scans, in source order. -/
def extractTableConstraints (l : List Char) : List TableConstraint :=
  ((gscan pkAt l).map (fun colsStr =>
    TableConstraint.mk .PRIMARY_KEY (parseFieldList colsStr) none)) ++
  ((gscan fkTableAt l).map (fun m =>
    TableConstraint.mk .FOREIGN_KEY (parseFieldList m.1)
      (some ⟨m.2.1, parseFieldList m.2.2⟩))) ++
  ((gscan uniqueAt l).map (fun colsStr =>
    TableConstraint.mk .UNIQUE (parseFieldList colsStr) none)) ++
  ((gscan indexAt l).map (fun m =>
    TableConstraint.mk .INDEX (parseFieldList m.2) none))

/-- `validateTableCount` with the default limits (validation.ts lines
304-314). -/
def validateTableCount (n : Nat) : Except SQLParseErr Unit :=
  if 1000 < n then .error ⟨"Table count exceeds maximum allowed count"⟩ else .ok ()

/-- `validateFieldCount` with the default limits (validation.ts lines
323-333). -/
def validateFieldCount (n : Nat) : Except SQLParseErr Unit :=
  if 500 < n then .error ⟨"Field count exceeds maximum allowed count"⟩ else .ok ()

/-- `extractTableSchema` (table-extractor.ts lines 73-94). -/
def extractTableSchema (raw : RawTableDefinition) : Except SQLParseErr TableSchema :=
  match parseFields raw.fieldsString with
  | .error e => .error e
  | .ok fields => .ok ⟨raw.name, fields, extractTableConstraints raw.fieldsString⟩

/-- The per-table loop of `extractTables` (lines 39-56), including the field
count validation and the error decoration with the table name. -/
def extractAllSchemas : List RawTableDefinition → Except SQLParseErr (List TableSchema)
  | [] => .ok []
  | raw :: rest =>
    match extractTableSchema raw with
    | .error e => .error ⟨"Error extracting table: " ++ e.msg⟩
    | .ok t =>
      match validateFieldCount t.fields.length with
      | .error e => .error ⟨"Error extracting table: " ++ e.msg⟩
      | .ok _ =>
        match extractAllSchemas rest with
        | .error e => .error e
        | .ok ts => .ok (t :: ts)

/-- `extractTables` (table-extractor.ts lines 24-65). -/
def extractTables (sql : List Char) : Except SQLParseErr (List TableSchema) :=
  if sql.isEmpty then .error ⟨"Invalid SQL input: must be a non-empty string"⟩
  else
    match SQLParser.parse sql with
    | .error e => .error e
    | .ok rawTables =>
      match validateTableCount rawTables.length with
      | .error e => .error e
      | .ok _ => extractAllSchemas rawTables

end TableExtractor

/-- SQL dialects (types/index.ts `SQLDialect`). -/
inductive SQLDialect where
  | MYSQL
  | POSTGRESQL
  | SQLITE
  | AUTO
  deriving Repr, DecidableEq

/-- The enum string value of each dialect, used as a JS object key. -/
def dialectKey : SQLDialect → List Char
  | .MYSQL => cs "mysql"
  | .POSTGRESQL => cs "postgresql"
  | .SQLITE => cs "sqlite"
  | .AUTO => cs "auto"

/-- Error value for thrown `TypeMappingError`s. -/
structure TypeMappingErr where
  msg : String
  sqlType : List Char
  dialect : SQLDialect
  deriving Repr, DecidableEq

/-- First-match association lookup, the semantics of reading a JS object
property built from unique keys. -/
def lookupA {V : Type} : List (List Char × V) → List Char → Option V
  | [], _ => none
  | (a, b) :: rest, k => if a = k then some b else lookupA rest k

/-- JS object property assignment: overwrite in place or append. -/
def setAssoc {V : Type} : List (List Char × V) → List Char → V → List (List Char × V)
  | [], k, v => [(k, v)]
  | (a, b) :: rest, k, v =>
    if a = k then (a, v) :: rest else (a, b) :: setAssoc rest k v

/-- JS `delete obj[k]`: drop the property. -/
def delAssoc {V : Type} : List (List Char × V) → List Char → List (List Char × V)
  | [], _ => []
  | (a, b) :: rest, k => if a = k then rest else (a, b) :: delAssoc rest k

/-- The object spread `\x7b...base, ...override\x7d`: base entries (overridden
values replaced in place) followed by the override's new keys. -/
def mergeAssoc (base override : List (List Char × List Char)) :
    List (List Char × List Char) :=
  (base.map (fun p => (p.1, ((lookupA override p.1).getD p.2)))) ++
  override.filter (fun p => (lookupA base p.1).isNone)

namespace TypeMapper

open Validation

/-- `TYPE_MAPPINGS.mysql` (table-extractor.ts lines 249-280). -/
def mysqlMappings : List (List Char × List Char) :=
  [(cs "int", cs "number"), (cs "bigint", cs "number"), (cs "tinyint", cs "number"),
   (cs "smallint", cs "number"), (cs "mediumint", cs "number"), (cs "float", cs "number"),
   (cs "double", cs "number"), (cs "decimal", cs "number"), (cs "numeric", cs "number"),
   (cs "varchar", cs "string"), (cs "char", cs "string"), (cs "text", cs "string"),
   (cs "longtext", cs "string"), (cs "mediumtext", cs "string"), (cs "tinytext", cs "string"),
   (cs "datetime", cs "Date"), (cs "timestamp", cs "Date"), (cs "date", cs "Date"),
   (cs "time", cs "string"), (cs "year", cs "number"), (cs "boolean", cs "boolean"),
   (cs "tinyint(1)", cs "boolean"), (cs "bit", cs "boolean"), (cs "json", cs "object"),
   (cs "blob", cs "Buffer"), (cs "longblob", cs "Buffer"), (cs "mediumblob", cs "Buffer"),
   (cs "tinyblob", cs "Buffer"), (cs "binary", cs "Buffer"), (cs "varbinary", cs "Buffer")]

/-- `TYPE_MAPPINGS.postgresql` (table-extractor.ts lines 281-318). -/
def postgresqlMappings : List (List Char × List Char) :=
  [(cs "integer", cs "number"), (cs "int", cs "number"), (cs "int4", cs "number"),
   (cs "bigint", cs "number"), (cs "int8", cs "number"), (cs "smallint", cs "number"),
   (cs "int2", cs "number"), (cs "real", cs "number"), (cs "float4", cs "number"),
   (cs "double precision", cs "number"), (cs "float8", cs "number"),
   (cs "numeric", cs "number"), (cs "decimal", cs "number"), (cs "varchar", cs "string"),
   (cs "character varying", cs "string"), (cs "char", cs "string"),
   (cs "character", cs "string"), (cs "text", cs "string"), (cs "timestamp", cs "Date"),
   (cs "timestamptz", cs "Date"), (cs "timestamp with time zone", cs "Date"),
   (cs "timestamp without time zone", cs "Date"), (cs "date", cs "Date"),
   (cs "time", cs "string"), (cs "timetz", cs "string"),
   (cs "time with time zone", cs "string"), (cs "time without time zone", cs "string"),
   (cs "boolean", cs "boolean"), (cs "bool", cs "boolean"), (cs "json", cs "object"),
   (cs "jsonb", cs "object"), (cs "uuid", cs "string"), (cs "bytea", cs "Buffer"),
   (cs "serial", cs "number"), (cs "bigserial", cs "number"),
   (cs "smallserial", cs "number")]

/-- `TYPE_MAPPINGS.sqlite` (table-extractor.ts lines 319-336). -/
def sqliteMappings : List (List Char × List Char) :=
  [(cs "integer", cs "number"), (cs "int", cs "number"), (cs "real", cs "number"),
   (cs "float", cs "number"), (cs "double", cs "number"), (cs "text", cs "string"),
   (cs "varchar", cs "string"), (cs "char", cs "string"), (cs "blob", cs "Buffer"),
   (cs "numeric", cs "number"), (cs "decimal", cs "number"), (cs "boolean", cs "boolean"),
   (cs "datetime", cs "Date"), (cs "timestamp", cs "Date"), (cs "date", cs "Date"),
   (cs "time", cs "string")]

/-- The static `TYPE_MAPPINGS` object: `auto` is not a key. -/
def typeMappingsTable : SQLDialect → Option (List (List Char × List Char))
  | .MYSQL => some mysqlMappings
  | .POSTGRESQL => some postgresqlMappings
  | .SQLITE => some sqliteMappings
  | .AUTO => none

/-- A `TypeMapper` instance: its mutable state is the per-instance custom
mapping object (dialect key → type key → mapped type) and the strict flag. -/
structure Mapper where
  customMappings : List (List Char × List (List Char × List Char)) := []
  strictMode : Bool := false
  deriving Repr, DecidableEq

/-- `getMergedMappings` (table-extractor.ts lines 454-470): resolve AUTO to
MySQL, then spread custom mappings over the built-in table. -/
def getMergedMappings (m : Mapper) (d : SQLDialect) :
    Option (List (List Char × List Char)) :=
  let ad := if d = .AUTO then .MYSQL else d
  match typeMappingsTable ad with
  | none => none
  | some dm => some (mergeAssoc dm ((lookupA m.customMappings (dialectKey ad)).getD []))

/-- PostgreSQL dialect-signature substrings, in source order
(table-extractor.ts lines 353-361). -/
def pgSignatures : List (List Char) :=
  [cs "serial", cs "bigserial", cs "smallserial", cs "timestamptz", cs "jsonb",
   cs "uuid", cs "bytea", cs "double precision", cs "character varying"]

/-- MySQL dialect-signature substrings (lines 366-377). -/
def mysqlSignatures : List (List Char) :=
  [cs "auto_increment", cs "tinyint", cs "mediumint", cs "longtext", cs "mediumtext",
   cs "tinytext", cs "longblob", cs "mediumblob", cs "tinyblob", cs "engine=",
   cs "charset=", cs "collate="]

/-- SQLite dialect-signature substrings (lines 382-384). -/
def sqliteSignatures : List (List Char) :=
  [cs "autoincrement", cs "without rowid", cs "pragma"]

/-- Does the text contain any of the signature substrings? -/
def containsAny (l : List Char) (sigs : List (List Char)) : Bool :=
  sigs.any (containsSub l)

/-- `detectDialect` (table-extractor.ts lines 349-390). -/
def detectDialect (sqlContent : List Char) : SQLDialect :=
  let content := sqlContent.map lowerC
  if containsAny content pgSignatures then .POSTGRESQL
  else if containsAny content mysqlSignatures then .MYSQL
  else if containsAny content sqliteSignatures then .SQLITE
  else .MYSQL

/-- Case-sensitive literal at the head (the special-case regexes are written
lower-case and applied to the lowered type). -/
def litStarts (pat l : List Char) : Option (List Char) :=
  if startsList pat l then some (l.drop pat.length) else none

/-- `/^tinyint\s*\(\s*1\s*\)/` on the cleaned type. -/
def tinyint1Match (l : List Char) : Bool :=
  (do
    let r1 ← litStarts (cs "tinyint") l
    let r2 := (wsMany r1).2
    let (_, r3) ← oneChar '(' r2
    let r4 := (wsMany r3).2
    let (_, r5) ← oneChar '1' r4
    let r6 := (wsMany r5).2
    let (_, _) ← oneChar ')' r6
    pure ()).isSome

/-- `/^enum\s*\(/` (and `^set\s*\(` via the second argument). -/
def kwParenMatch (kw : List Char) (l : List Char) : Bool :=
  (do
    let r1 ← litStarts kw l
    let r2 := (wsMany r1).2
    let (_, _) ← oneChar '(' r2
    pure ()).isSome

/-- `replace(/\([^)]*\)/g, '')`: erase every parenthesised group (an
unterminated `(` is not a match and stays). -/
def removeParenGroupsF : Nat → List Char → List Char
  | 0, l => l
  | _, [] => []
  | fuel + 1, c :: rest =>
    if c = '(' then
      match rest.dropWhile (fun x => !(x = ')')) with
      | _ :: r2 => removeParenGroupsF fuel r2
      | [] => c :: removeParenGroupsF fuel rest
    else c :: removeParenGroupsF fuel rest

/-- Does `\s+(unsigned|signed)$` match at this position? -/
def signedEndAt (u : List Char) : Bool :=
  (do
    let (_, r1) ← wsSome u
    let (_, r2) ← matchCi (cs "unsigned") r1 <|> matchCi (cs "signed") r1
    if r2.isEmpty then some () else none).isSome

/-- `replace(/\s+(unsigned|signed)$/i, '')`, leftmost match. -/
def stripSignedEnd : List Char → List Char
  | [] => []
  | c :: rest => if signedEndAt (c :: rest) then [] else c :: stripSignedEnd rest

/-- `replace(/\s+/g, ' ')`: each whitespace run becomes one space. -/
def wsRunsToSpaceF : Nat → List Char → List Char
  | 0, l => l
  | _, [] => []
  | fuel + 1, c :: rest =>
    if isJsSpace c then ' ' :: wsRunsToSpaceF fuel (rest.dropWhile isJsSpace)
    else c :: wsRunsToSpaceF fuel rest

/-- `normalizeType` (table-extractor.ts lines 529-540). -/
def normalizeType (sqlType : List Char) : List Char :=
  let s1 := trimL (sqlType.map lowerC)
  let s2 := removeParenGroupsF (s1.length + 1) s1
  let s3 := stripSignedEnd s2
  trimL (wsRunsToSpaceF (s3.length + 1) s3)

/-- `findPartialMatch` (table-extractor.ts lines 548-563). -/
def findPartialMatch (normalizedType : List Char)
    (mappings : List (List Char × List Char)) : Option (List Char) :=
  if normalizedType = cs "tinyint" && (lookupA mappings (cs "tinyint(1)")).isSome then
    some ((lookupA mappings (cs "tinyint")).getD (cs "number"))
  else
    let baseType := normalizedType.takeWhile (fun c => !(c = ' '))
    if baseType.isEmpty then none else lookupA mappings baseType

/-- `replace(/\[\]$/, '')` — strip one trailing array marker. -/
def stripArrEnd (l : List Char) : List Char :=
  if l.getLast? = some ']' && l.dropLast.getLast? = some '[' then l.dropLast.dropLast
  else l

mutual

/-- `mapType` (table-extractor.ts lines 398-447), with fuel bounding the two
recursions (unsupported-dialect retry and PostgreSQL array elements; the
source would overflow the stack where the fuel runs out). -/
def mapTypeF (m : Mapper) : Nat → List Char → SQLDialect → Except TypeMappingErr (List Char)
  | 0, sqlType, dialect => .error ⟨"recursion limit exceeded", sqlType, dialect⟩
  | fuel + 1, sqlType, dialect =>
    if sqlType.isEmpty then .ok (cs "any")
    else
      let cleanType := trimL (sqlType.map lowerC)
      match getMergedMappings m dialect with
      | none =>
        if m.strictMode then .error ⟨"Unsupported dialect", sqlType, dialect⟩
        else mapTypeF m fuel sqlType .MYSQL
      | some mappings =>
        match handleSpecialCasesF m fuel cleanType dialect mappings with
        | .error e => .error e
        | .ok (some t) => .ok t
        | .ok none =>
          let normalizedType := normalizeType cleanType
          match lookupA mappings normalizedType with
          | some t => .ok t
          | none =>
            match findPartialMatch normalizedType mappings with
            | some t => .ok t
            | none =>
              if m.strictMode then
                .error ⟨"Unrecognized SQL type", sqlType, dialect⟩
              else .ok (cs "any")

/-- `handleSpecialCases` (table-extractor.ts lines 479-522). -/
def handleSpecialCasesF (m : Mapper) : Nat → List Char → SQLDialect →
    List (List Char × List Char) → Except TypeMappingErr (Option (List Char))
  | 0, cleanType, dialect, _ => .error ⟨"recursion limit exceeded", cleanType, dialect⟩
  | fuel + 1, cleanType, dialect, mappings =>
    if dialect = .MYSQL then
      if tinyint1Match cleanType then
        .ok (some ((lookupA mappings (cs "tinyint(1)")).getD (cs "boolean")))
      else if kwParenMatch (cs "enum") cleanType then .ok (some (cs "string"))
      else if kwParenMatch (cs "set") cleanType then .ok (some (cs "string"))
      else .ok none
    else if dialect = .POSTGRESQL then
      if containsSub cleanType (cs "[]") then
        let baseType := trimL (stripArrEnd cleanType)
        match mapTypeF m fuel baseType dialect with
        | .error e => .error e
        | .ok bm => .ok (some (bm ++ cs "[]"))
      else if kwParenMatch (cs "enum") cleanType then .ok (some (cs "string"))
      else .ok none
    else if dialect = .SQLITE then
      if containsSub cleanType (cs "int") && !containsSub cleanType (cs "point") then
        .ok (some (cs "number"))
      else .ok none
    else .ok none

end

/-- `mapType` at a fuel that covers every terminating source behaviour. -/
def mapType (m : Mapper) (sqlType : List Char)
    (dialect : SQLDialect := .MYSQL) : Except TypeMappingErr (List Char) :=
  mapTypeF m (sqlType.length + 2) sqlType dialect

/-- `addCustomMapping` (table-extractor.ts lines 599-604). -/
def addCustomMapping (m : Mapper) (d : SQLDialect) (sqlType tsType : List Char) : Mapper :=
  let dk := dialectKey d
  let cur := (lookupA m.customMappings dk).getD []
  { m with customMappings := setAssoc m.customMappings dk (setAssoc cur (sqlType.map lowerC) tsType) }

/-- `removeCustomMapping` (table-extractor.ts lines 611-615). -/
def removeCustomMapping (m : Mapper) (d : SQLDialect) (sqlType : List Char) : Mapper :=
  match lookupA m.customMappings (dialectKey d) with
  | none => m
  | some cur =>
    { m with customMappings :=
        setAssoc m.customMappings (dialectKey d) (delAssoc cur (sqlType.map lowerC)) }

end TypeMapper

set_option maxRecDepth 10000

deriving instance DecidableEq for Except

/-- Parenthesis balance of a text (used to state the delimiter-balance
property of the Statement Extractor's capture). -/
def balGo : List Char → Nat → Bool
  | [], d => d = 0
  | c :: rest, d =>
    if c = '(' then balGo rest (d + 1)
    else if c = ')' then
      match d with
      | 0 => false
      | e + 1 => balGo rest e
    else balGo rest d

/-- Exactly balanced parentheses. -/
def balancedParens (l : List Char) : Bool := balGo l 0

/-- Parenthesis nesting of depth at most one: outside any group a `(` opens a
group and a `)` is illegal; inside a group a `)` closes it and a `(` is
illegal; the text must end outside a group. -/
def depth1Go : List Char → Bool → Bool
  | [], inG => !inG
  | c :: rest, false =>
    if c = '(' then depth1Go rest true
    else if c = ')' then false
    else depth1Go rest false
  | c :: rest, true =>
    if c = ')' then depth1Go rest false
    else if c = '(' then false
    else depth1Go rest true

/-- Field-list texts whose nested parentheses have depth at most one. -/
def depth1Parens (l : List Char) : Bool := depth1Go l false

/-- Rejoin split segments with commas. -/
def interComma : List (List Char) → List Char
  | [] => []
  | [x] => x
  | x :: y :: rest => x ++ ',' :: interComma (y :: rest)

/-- A text made of JS whitespace only. -/
def isWsOnly (l : List Char) : Bool := l.all isJsSpace

/-- The text contains no letter that lower-cases to `c` (hence no CREATE
TABLE match can start anywhere in it). -/
def noCreateStart (l : List Char) : Bool := l.all (fun c => !(lowerC c = 'c'))

/-- A character of a simple unquoted DEFAULT value: no whitespace, quotes or
parentheses (each of those changes the scanner state). -/
def simpleVChar (c : Char) : Bool :=
  !isJsSpace c && !(c = sqChar) && !(c = dqChar) && !(c = '(') && !(c = ')')

/-- A remainder at which the DEFAULT-value scan stops without extending the
value: the end of the string, or a whitespace character whose trimmed tail
passes the scanner's stop test (and is not an ON UPDATE clause). -/
def isStopTail (t : List Char) : Bool :=
  match t with
  | [] => true
  | w :: t' =>
    isJsSpace w && FieldParser.stopKwWs (trimL (w :: t')) &&
      !FieldParser.onUpdStarts (trimL (w :: t'))

/-- The resolved dialect used for mapping lookups (AUTO aliases MySQL). -/
def resolveD (d : SQLDialect) : SQLDialect := if d = .AUTO then .MYSQL else d

/-- The built-in table of a (resolved) dialect. -/
def defaultTable (d : SQLDialect) : List (List Char × List Char) :=
  (TypeMapper.typeMappingsTable d).getD []

/-- Lookup in a mapper's per-instance custom mappings. -/
def customLookup (m : TypeMapper.Mapper) (d : SQLDialect) (k : List Char) :
    Option (List Char) :=
  match lookupA m.customMappings (dialectKey d) with
  | some tbl => lookupA tbl k
  | none => none

/-- Well-formedness of a mapper's custom-mapping state: JS object keys are
unique at both levels. -/
def MapperWf (m : TypeMapper.Mapper) : Prop :=
  (m.customMappings.map Prod.fst).Nodup ∧
    ∀ t ∈ m.customMappings, (t.2.map Prod.fst).Nodup

/-- C7: for the MySQL dialect, `mapType` maps `TINYINT(1)` to the boolean
target type, while `TINYINT(2)` and plain `TINYINT` map to the numeric one. -/
theorem mapType_tinyint_cases :
    TypeMapper.mapType ⟨[], false⟩ (cs "TINYINT(1)") .MYSQL = .ok (cs "boolean") ∧
    TypeMapper.mapType ⟨[], false⟩ (cs "TINYINT(2)") .MYSQL = .ok (cs "number") ∧
    TypeMapper.mapType ⟨[], false⟩ (cs "TINYINT") .MYSQL = .ok (cs "number") := by
  refine ⟨by decide, by decide, by decide⟩

/-- C9: `mapType` on an empty (falsy) SQL type string returns `any` and does
not fail, for every mapper instance — in particular also in strict mode, the
empty-type early return bypassing the strict failure path. -/
theorem mapType_empty_returns_any (m : TypeMapper.Mapper) (d : SQLDialect) :
    TypeMapper.mapType m [] d = .ok (cs "any") := rfl

/-- C2: `extractTables` on the two-table input yields exactly the two
schemas; `posts` carries exactly one table constraint, a FOREIGN_KEY on
`user_id` referencing `users(id)`. -/
theorem extractTables_two_tables_fk :
    TableExtractor.extractTables (cs "CREATE TABLE users (id INT PRIMARY KEY); CREATE TABLE posts (id INT PRIMARY KEY, user_id INT, FOREIGN KEY (user_id) REFERENCES users(id));") =
    .ok [⟨cs "users", [⟨cs "id", cs "INT", false, none, [⟨.PRIMARY_KEY, none⟩], none⟩], []⟩,
         ⟨cs "posts", [⟨cs "id", cs "INT", false, none, [⟨.PRIMARY_KEY, none⟩], none⟩,
                       ⟨cs "user_id", cs "INT", true, none, [], none⟩],
          [⟨.FOREIGN_KEY, [cs "user_id"], some ⟨cs "users", [cs "id"]⟩⟩]⟩] := by decide

/-- C1 counterexample: a field list with nested parentheses of depth two.
The Statement Extractor's captured fieldsString is not balanced and is a
strict prefix of the substring between the statement's outer parentheses, so
the delimiter-balance property fails for nesting depth two. -/
theorem parse_capture_unbalanced_cex :
    SQLParser.parse (cs "CREATE TABLE t (a INT DEFAULT (f(1)));") =
      .ok [⟨cs "t", cs "a INT DEFAULT (f(1)", 1, cs "CREATE TABLE t (a INT DEFAULT (f(1))"⟩] ∧
    balancedParens (cs "a INT DEFAULT (f(1)") = false ∧
    ¬ (cs "a INT DEFAULT (f(1)" = cs "a INT DEFAULT (f(1))") := by
  refine ⟨by decide, by decide, by decide⟩

/-- C3 counterexample: a comma directly adjacent to the DEFAULT value (no
whitespace before it) is consumed into the value instead of stopping the
scan: the extracted value is `0,x`, not `0`. -/
theorem extractDefault_comma_adjacent_cex :
    FieldParser.extractDefaultValue (cs "DEFAULT 0,x") = some (cs "0,x") ∧
    (FieldParser.parseField (cs "a INT DEFAULT 0,x")).map FieldSchema.defaultValue =
      .ok (some (cs "0,x")) ∧
    ¬ (some (cs "0,x") = some (cs "0")) := by
  refine ⟨by decide, by decide, by decide⟩

/-- C4 counterexample: on a field list with a trailing comma the split drops
the final empty segment, so rejoining the segments with commas loses the
trailing comma — the rejoined text does not reproduce the original modulo
whitespace. -/
theorem split_rejoin_trailing_comma_cex :
    FieldParser.splitFieldDefinitions (cs "id INT,") = [cs "id INT"] ∧
    ¬ (stripWs (interComma (FieldParser.splitFieldDefinitions (cs "id INT,"))) =
        stripWs (cs "id INT,")) := by
  refine ⟨by decide, by decide⟩

/-- C8: any PostgreSQL signature substring (the spec's seven) forces
POSTGRESQL regardless of other signatures; with no PostgreSQL signature a
MySQL signature forces MYSQL; then SQLite; and MYSQL is the default when no
signature matches. -/
theorem detectDialect_precedence :
    (∀ s sig, sig ∈ [cs "serial", cs "jsonb", cs "uuid", cs "bytea", cs "timestamptz",
        cs "double precision", cs "character varying"] →
      containsSub (s.map lowerC) sig = true →
      TypeMapper.detectDialect s = .POSTGRESQL) ∧
    (∀ s, TypeMapper.containsAny (s.map lowerC) TypeMapper.pgSignatures = false →
      TypeMapper.containsAny (s.map lowerC) TypeMapper.mysqlSignatures = true →
      TypeMapper.detectDialect s = .MYSQL) ∧
    (∀ s, TypeMapper.containsAny (s.map lowerC) TypeMapper.pgSignatures = false →
      TypeMapper.containsAny (s.map lowerC) TypeMapper.mysqlSignatures = false →
      TypeMapper.containsAny (s.map lowerC) TypeMapper.sqliteSignatures = true →
      TypeMapper.detectDialect s = .SQLITE) ∧
    (∀ s, TypeMapper.containsAny (s.map lowerC) TypeMapper.pgSignatures = false →
      TypeMapper.containsAny (s.map lowerC) TypeMapper.mysqlSignatures = false →
      TypeMapper.containsAny (s.map lowerC) TypeMapper.sqliteSignatures = false →
      TypeMapper.detectDialect s = .MYSQL) := by
  refine ⟨?_, ?_, ?_, ?_⟩
  · intro s sig hmem h
    fin_cases hmem <;>
      simp [TypeMapper.detectDialect, TypeMapper.containsAny, TypeMapper.pgSignatures, h]
  · intro s h1 h2
    simp [TypeMapper.detectDialect, h1, h2]
  · intro s h1 h2 h3
    simp [TypeMapper.detectDialect, h1, h2, h3]
  · intro s h1 h2 h3
    simp [TypeMapper.detectDialect, h1, h2, h3]

/-- C8 witness: the precedence facts applied at concrete inputs, including a
SERIAL column inside an ENGINE=InnoDB table (PostgreSQL wins the conflict). -/
theorem detectDialect_precedence_witness :
    TypeMapper.detectDialect (cs "CREATE TABLE t (id SERIAL) ENGINE=InnoDB") = .POSTGRESQL ∧
    TypeMapper.detectDialect (cs "CREATE TABLE t (id INT AUTO_INCREMENT)") = .MYSQL ∧
    TypeMapper.detectDialect (cs "CREATE TABLE t (id INTEGER AUTOINCREMENT)") = .SQLITE ∧
    TypeMapper.detectDialect (cs "CREATE TABLE t (id INT)") = .MYSQL := by
  refine ⟨?_, ?_, ?_, ?_⟩
  · exact detectDialect_precedence.1 _ (cs "serial") (by simp) (by decide)
  · exact detectDialect_precedence.2.1 _ (by decide) (by decide)
  · exact detectDialect_precedence.2.2.1 _ (by decide) (by decide) (by decide)
  · exact detectDialect_precedence.2.2.2 _ (by decide) (by decide) (by decide)

theorem parseConstraints_pk (r : List Char)
    (h : (FieldParser.parseConstraints r).any
        (fun c => c.type = FieldConstraintType.PRIMARY_KEY) = true) :
    FieldParser.testPrimaryKey r = true := by
  by_cases hp : FieldParser.testPrimaryKey r = true
  · exact hp
  · exfalso
    unfold FieldParser.parseConstraints at h
    rw [List.any_eq_true] at h
    obtain ⟨x, hx, hxt⟩ := h
    simp only [List.mem_append] at hx
    rcases hx with ((((hx | hx) | hx) | hx) | hx)
    · simp [hp] at hx
    · split at hx <;> simp_all
    · split at hx <;> simp_all
    · split at hx <;> simp_all
    · split at hx
      · split at hx <;> simp_all
      · simp_all

theorem determineNullability_pk (r : List Char)
    (h : FieldParser.testPrimaryKey r = true) :
    FieldParser.determineNullability r = false := by
  unfold FieldParser.determineNullability
  by_cases hn : FieldParser.testNotNull r = true <;> simp [hn, h]

theorem parseField_ok_shape (d : List Char) (f : FieldSchema)
    (h : FieldParser.parseField d = .ok f) :
    ∃ r, f.nullable = FieldParser.determineNullability r ∧
      f.constraints = FieldParser.parseConstraints r := by
  unfold FieldParser.parseField at h
  dsimp only at h
  split at h
  · simp at h
  · split at h
    · simp at h
    · split at h
      · simp at h
      · split at h
        · simp at h
        · split at h
          · simp at h
          · split at h
            · simp at h
            · obtain rfl := Except.ok.inj h
              exact ⟨_, rfl, rfl⟩

theorem parseFieldsGo_mem (segs : List (List Char)) :
    ∀ i acc l f, FieldParser.parseFieldsGo segs i acc = .ok l → f ∈ l →
      f ∈ acc ∨ ∃ d, FieldParser.parseField d = .ok f := by
  induction segs with
  | nil =>
    intro i acc l f h hf
    simp only [FieldParser.parseFieldsGo] at h
    obtain rfl := Except.ok.inj h
    exact Or.inl hf
  | cons seg rest ih =>
    intro i acc l f h hf
    unfold FieldParser.parseFieldsGo at h
    dsimp only at h
    split at h
    · exact ih _ _ _ _ h hf
    · split at h
      · exact ih _ _ _ _ h hf
      · split at h
        · next f0 hp =>
          rcases ih _ _ _ _ h hf with hacc | hex
          · rcases List.mem_append.mp hacc with hl | hr
            · exact Or.inl hl
            · have hff : f = f0 := List.mem_singleton.mp hr
              exact Or.inr ⟨trimL seg, by rw [hff]; exact hp⟩
          · exact Or.inr hex
        · simp at h

/-- C5: every FieldSchema returned by parseField or parseFields whose
constraints contain PRIMARY_KEY has nullable = false (the nullability test
and the constraint test share the same PRIMARY KEY pattern). -/
theorem primary_key_not_nullable :
    (∀ d f, FieldParser.parseField d = .ok f →
      (f.constraints.any (fun c => c.type = FieldConstraintType.PRIMARY_KEY)) = true →
      f.nullable = false) ∧
    (∀ fs l f, FieldParser.parseFields fs = .ok l → f ∈ l →
      (f.constraints.any (fun c => c.type = FieldConstraintType.PRIMARY_KEY)) = true →
      f.nullable = false) := by
  have part1 : ∀ d f, FieldParser.parseField d = .ok f →
      (f.constraints.any (fun c => c.type = FieldConstraintType.PRIMARY_KEY)) = true →
      f.nullable = false := by
    intro d f h hpk
    obtain ⟨r, hn, hc⟩ := parseField_ok_shape d f h
    rw [hn]
    exact determineNullability_pk r (parseConstraints_pk r (hc ▸ hpk))
  refine ⟨part1, ?_⟩
  intro fs l f h hf hpk
  unfold FieldParser.parseFields at h
  split at h
  · simp at h
  · rcases parseFieldsGo_mem _ _ _ _ _ h hf with hacc | ⟨d, hd⟩
    · simp at hacc
    · exact part1 d f hd hpk

/-- C5 witness: the invariant applied to the field `id INT PRIMARY KEY`. -/
theorem primary_key_not_nullable_witness :
    (⟨cs "id", cs "INT", false, none, [⟨FieldConstraintType.PRIMARY_KEY, none⟩], none⟩ :
      FieldSchema).nullable = false :=
  primary_key_not_nullable.1 (cs "id INT PRIMARY KEY") _ (by decide) (by decide)

theorem jsSpace_not_create (c : Char) (h : isJsSpace c = true) : lowerC c ≠ 'c' := by
  simp only [isJsSpace, Bool.or_eq_true, decide_eq_true_eq, Bool.and_eq_true] at h
  rcases h with ((((((((((((((h|h)|h)|h)|h)|h)|h)|h)|h)|h)|h)|h)|h)|h)|h) <;>
    first
      | (subst h; decide)
      | (obtain ⟨h1, _⟩ := h
         have h90 : ¬(65 ≤ c.toNat ∧ c.toNat ≤ 90) := by omega
         simp only [lowerC, if_neg h90]
         intro hcc
         subst hcc
         exact absurd h1 (by decide))

theorem all_of_filter {p q : Char → Bool} {l : List Char} (h : l.all p = true) :
    (l.filter q).all p = true := by
  rw [List.all_eq_true] at h ⊢
  exact fun c hc => h c (List.mem_of_mem_filter hc)

theorem all_of_takeWhile {p q : Char → Bool} {l : List Char} (h : l.all p = true) :
    (l.takeWhile q).all p = true := by
  rw [List.all_eq_true] at h ⊢
  exact fun c hc => h c ((List.takeWhile_sublist q).mem hc)

theorem all_of_dropWhile {p q : Char → Bool} {l : List Char} (h : l.all p = true) :
    (l.dropWhile q).all p = true := by
  rw [List.all_eq_true] at h ⊢
  exact fun c hc => h c ((List.dropWhile_sublist q).mem hc)

theorem collapseWsF_all {p : Char → Bool} (hsp : p ' ' = true) :
    ∀ fuel l, l.all p = true → (Validation.collapseWsF fuel l).all p = true := by
  intro fuel
  induction fuel with
  | zero => intro l h; simp only [Validation.collapseWsF]; exact h
  | succ n ih =>
    intro l h
    cases l with
    | nil => simp only [Validation.collapseWsF]; exact h
    | cons c rest =>
      have hall := h
      simp only [List.all_cons, Bool.and_eq_true] at hall
      obtain ⟨hc, hrest⟩ := hall
      unfold Validation.collapseWsF
      split
      · rw [List.all_append, Bool.and_eq_true]
        refine ⟨?_, ih _ (all_of_dropWhile hrest)⟩
        split
        · simp [hsp]
        · exact all_of_takeWhile h
      · rw [List.all_cons, Bool.and_eq_true]
        exact ⟨hc, ih _ hrest⟩

theorem fixCrF_all {p : Char → Bool} (hnl : p (Char.ofNat 10) = true) :
    ∀ fuel l, l.all p = true → (Validation.fixCrF fuel l).all p = true := by
  intro fuel
  induction fuel with
  | zero => intro l h; simp only [Validation.fixCrF]; exact h
  | succ n ih =>
    intro l h
    cases l with
    | nil => simp only [Validation.fixCrF]; exact h
    | cons c rest =>
      have hall := h
      simp only [List.all_cons, Bool.and_eq_true] at hall
      obtain ⟨hc, hrest⟩ := hall
      unfold Validation.fixCrF
      split
      · cases rest with
        | nil => simp [hnl]
        | cons d r2 =>
          have hall2 := hrest
          simp only [List.all_cons, Bool.and_eq_true] at hall2
          obtain ⟨hd, hr2⟩ := hall2
          dsimp only
          split
          · rw [List.all_cons, Bool.and_eq_true]
            exact ⟨hnl, ih _ hr2⟩
          · rw [List.all_cons, Bool.and_eq_true]
            exact ⟨hnl, ih _ hrest⟩
      · rw [List.all_cons, Bool.and_eq_true]
        exact ⟨hc, ih _ hrest⟩

theorem all_trimL {p : Char → Bool} {l : List Char} (h : l.all p = true) :
    (trimL l).all p = true := by
  unfold trimL
  rw [List.all_eq_true]
  intro c hc
  rw [List.mem_reverse] at hc
  have hc2 := (List.dropWhile_sublist _).mem hc
  rw [List.mem_reverse] at hc2
  exact List.all_eq_true.mp (all_of_dropWhile h) c hc2

theorem sanitize_noCreate (l : List Char) (h : noCreateStart l = true) :
    noCreateStart (Validation.sanitizeSqlInput l) = true := by
  unfold noCreateStart at h ⊢
  unfold Validation.sanitizeSqlInput
  split
  · decide
  · exact all_trimL (fixCrF_all (by decide) _ _
      (all_of_filter (collapseWsF_all (by decide) _ _ (all_of_filter h))))

theorem matchCreateTableAt_none (l : List Char) (h : noCreateStart l = true) :
    SQLParser.matchCreateTableAt l = none := by
  cases l with
  | nil => rfl
  | cons c rest =>
    have hc : lowerC c ≠ 'c' := by
      have := List.all_eq_true.mp h c (List.mem_cons_self c rest)
      simpa using this
    have hm : matchCi (cs "create") (c :: rest) = none := by
      have hce : ciEqC 'c' c = false := by
        simp only [ciEqC, decide_eq_false_iff_not]
        intro hh
        exact hc (by rw [← hh]; decide)
      simp [cs, matchCi, hce]
    unfold SQLParser.matchCreateTableAt
    simp [hm]

theorem scanAllF_nil : ∀ (fuel : Nat) (l : List Char), noCreateStart l = true →
    SQLParser.scanAllF fuel l = [] := by
  intro fuel
  induction fuel with
  | zero => intro l _; simp only [SQLParser.scanAllF]
  | succ n ih =>
    intro l h
    cases l with
    | nil => simp only [SQLParser.scanAllF]
    | cons c rest =>
      unfold SQLParser.scanAllF
      rw [matchCreateTableAt_none _ h]
      exact ih rest (by
        unfold noCreateStart at h ⊢
        rw [List.all_cons, Bool.and_eq_true] at h
        exact h.2)

/-- C6: parse fails with a ParseError on empty input, whitespace-only input,
and any input in which the extractor's regex finds no CREATE TABLE statement
in the sanitized text; on the same three classes `hasCreateTableStatements`
is false (and total, hence never throws). -/
theorem parse_errors_hasCreate_false :
    ∀ s : List Char,
      (s = [] ∨ isWsOnly s = true ∨
        SQLParser.scanAll (Validation.sanitizeSqlInput s) = []) →
      (∃ e, SQLParser.parse s = .error e) ∧
        SQLParser.hasCreateTableStatements s = false := by
  intro s h
  have hscan : s = [] ∨ SQLParser.scanAll (Validation.sanitizeSqlInput s) = [] := by
    rcases h with rfl | hws | hsc
    · exact Or.inl rfl
    · refine Or.inr ?_
      unfold SQLParser.scanAll
      refine scanAllF_nil _ _ (sanitize_noCreate s ?_)
      unfold noCreateStart
      unfold isWsOnly at hws
      rw [List.all_eq_true] at hws ⊢
      intro c hcm
      simpa using jsSpace_not_create c (hws c hcm)
    · exact Or.inr hsc
  rcases hscan with rfl | hsc
  · exact ⟨⟨⟨"SQL input cannot be empty"⟩, rfl⟩, rfl⟩
  · constructor
    · unfold SQLParser.parse
      cases hv : Validation.validateSqlInput s with
      | error e => exact ⟨e, rfl⟩
      | ok u =>
        refine ⟨⟨"No CREATE TABLE statements found in the provided SQL"⟩, ?_⟩
        simp only [hsc, SQLParser.buildRawAll, List.isEmpty_nil, if_true]
    · unfold SQLParser.hasCreateTableStatements
      split
      · rfl
      · simp [hsc]

/-- C6 witness: the three failure classes at a whitespace-only input. -/
theorem parse_errors_hasCreate_false_witness :
    SQLParser.parse (cs " ") =
      .error ⟨"SQL input must contain at least one CREATE TABLE statement"⟩ ∧
    SQLParser.hasCreateTableStatements (cs " ") = false :=
  ⟨by decide, (parse_errors_hasCreate_false (cs " ") (Or.inr (Or.inl (by decide)))).2⟩

theorem lookupA_setAssoc {V : Type} (m : List (List Char × V)) (k : List Char) (v : V)
    (k' : List Char) :
    lookupA (setAssoc m k v) k' = if k' = k then some v else lookupA m k' := by
  induction m with
  | nil =>
    by_cases hk : k' = k
    · subst hk; simp [setAssoc, lookupA]
    · simp [setAssoc, lookupA, hk, show ¬(k = k') from fun h => hk h.symm]
  | cons p rest ih =>
    obtain ⟨a, b⟩ := p
    simp only [setAssoc]
    by_cases hak : a = k
    · subst hak
      simp only [if_pos rfl, lookupA]
      by_cases hk : a = k'
      · simp [hk]
      · simp [hk, show ¬(k' = a) from fun h => hk h.symm, lookupA]
    · simp only [if_neg hak, lookupA]
      by_cases hk : a = k'
      · simp [hk, show ¬(k' = k) from fun h => hak (hk.trans h)]
      · simp [hk, ih]

theorem lookupA_eq_none_of_not_mem {V : Type} (m : List (List Char × V)) (k : List Char)
    (h : k ∉ m.map Prod.fst) : lookupA m k = none := by
  induction m with
  | nil => rfl
  | cons p rest ih =>
    obtain ⟨a, b⟩ := p
    simp only [List.map_cons, List.mem_cons] at h
    push_neg at h
    simp only [lookupA]
    rw [if_neg (show ¬(a = k) from fun hh => h.1 hh.symm)]
    exact ih h.2

theorem lookupA_delAssoc {V : Type} (m : List (List Char × V)) (k k' : List Char)
    (hnd : (m.map Prod.fst).Nodup) :
    lookupA (delAssoc m k) k' = if k' = k then none else lookupA m k' := by
  induction m with
  | nil => by_cases hk : k' = k <;> simp [delAssoc, lookupA, hk]
  | cons p rest ih =>
    obtain ⟨a, b⟩ := p
    simp only [List.map_cons, List.nodup_cons] at hnd
    simp only [delAssoc]
    by_cases hak : a = k
    · subst hak
      simp only [if_pos rfl]
      by_cases hk : k' = a
      · subst hk
        simp only [if_pos rfl]
        exact lookupA_eq_none_of_not_mem rest k' hnd.1
      · simp [hk, lookupA, show ¬(a = k') from fun h => hk h.symm]
    · simp only [if_neg hak, lookupA]
      by_cases hk : a = k'
      · simp [hk, show ¬(k' = k) from fun h => hak (hk.trans h)]
      · simp [hk, ih hnd.2]

theorem lookupA_mapVal {V W : Type} (m : List (List Char × V)) (g : List Char → V → W)
    (k : List Char) :
    lookupA (m.map (fun p => (p.1, g p.1 p.2))) k =
      match lookupA m k with
      | some v => some (g k v)
      | none => none := by
  induction m with
  | nil => rfl
  | cons p rest ih =>
    obtain ⟨a, b⟩ := p
    simp only [List.map_cons, lookupA]
    by_cases hk : a = k
    · subst hk; simp
    · simp [hk, ih]

theorem lookupA_append {V : Type} (m1 m2 : List (List Char × V)) (k : List Char) :
    lookupA (m1 ++ m2) k =
      match lookupA m1 k with
      | some v => some v
      | none => lookupA m2 k := by
  induction m1 with
  | nil => rfl
  | cons p rest ih =>
    obtain ⟨a, b⟩ := p
    simp only [List.cons_append, lookupA]
    by_cases hk : a = k
    · simp [hk]
    · simp [hk, ih]

theorem lookupA_filterKey {V : Type} (m : List (List Char × V)) (cond : List Char → Bool)
    (k : List Char) (hc : cond k = true) :
    lookupA (m.filter (fun p => cond p.1)) k = lookupA m k := by
  induction m with
  | nil => rfl
  | cons p rest ih =>
    obtain ⟨a, b⟩ := p
    by_cases hk : a = k
    · subst hk
      simp only [List.filter_cons, hc, if_pos rfl, lookupA]
      simp [ih]
    · simp only [List.filter_cons]
      by_cases hca : cond a = true
      · simp [hca, lookupA, hk, ih]
      · simp only [Bool.not_eq_true] at hca
        simp [hca, lookupA, hk, ih]

theorem lookupA_merge (b o : List (List Char × List Char)) (k : List Char) :
    lookupA (mergeAssoc b o) k =
      match lookupA o k with
      | some v => some v
      | none => lookupA b k := by
  unfold mergeAssoc
  rw [lookupA_append]
  rw [show (b.map (fun p => (p.1, (lookupA o p.1).getD p.2))) =
      (b.map (fun p => (p.1, (fun kk vv => (lookupA o kk).getD vv) p.1 p.2))) from rfl]
  rw [lookupA_mapVal b (fun kk vv => (lookupA o kk).getD vv) k]
  cases hb : lookupA b k with
  | some bv =>
    cases ho : lookupA o k with
    | some ov => simp [Option.getD]
    | none => simp [ho, Option.getD]
  | none =>
    dsimp only
    rw [lookupA_filterKey o (fun kk => (lookupA b kk).isNone) k (by simp [hb])]
    cases ho : lookupA o k with
    | some ov => simp
    | none => simp [hb]

theorem lookupA_mem {V : Type} (m : List (List Char × V)) (k : List Char) (v : V)
    (h : lookupA m k = some v) : (k, v) ∈ m := by
  induction m with
  | nil => simp [lookupA] at h
  | cons p rest ih =>
    obtain ⟨a, b⟩ := p
    simp only [lookupA] at h
    by_cases hk : a = k
    · subst hk
      rw [if_pos rfl] at h
      obtain rfl := Option.some.inj h
      exact List.mem_cons_self _ _
    · rw [if_neg hk] at h
      exact List.mem_cons_of_mem _ (ih h)

theorem merged_lookup_aux (m : TypeMapper.Mapper) (dd : SQLDialect) (k : List Char)
    (tbl : List (List Char × List Char))
    (htbl : TypeMapper.typeMappingsTable dd = some tbl) :
    lookupA (mergeAssoc tbl ((lookupA m.customMappings (dialectKey dd)).getD [])) k =
      match customLookup m dd k with
      | some v => some v
      | none => lookupA (defaultTable dd) k := by
  rw [lookupA_merge]
  unfold customLookup defaultTable
  rw [htbl]
  cases hl : lookupA m.customMappings (dialectKey dd) with
  | some t => simp [Option.getD]
  | none => simp [Option.getD, lookupA]

/-- C10: addCustomMapping and removeCustomMapping change only the instance's
custom entry for the given dialect key with the SQL-type key lowercased,
leaving every other dialect and key unchanged; mapType's merged lookup is
custom-over-built-in computed at lookup time from the untouched static
tables. -/
theorem typeMapper_no_builtin_mutation :
    (∀ (m : TypeMapper.Mapper) (d : SQLDialect) (k v : List Char) (d' : SQLDialect)
        (k' : List Char),
      customLookup (TypeMapper.addCustomMapping m d k v) d' k' =
        if dialectKey d' = dialectKey d ∧ k' = k.map lowerC then some v
        else customLookup m d' k') ∧
    (∀ (m : TypeMapper.Mapper) (d : SQLDialect) (k : List Char) (d' : SQLDialect)
        (k' : List Char),
      MapperWf m →
      customLookup (TypeMapper.removeCustomMapping m d k) d' k' =
        if dialectKey d' = dialectKey d ∧ k' = k.map lowerC then none
        else customLookup m d' k') ∧
    (∀ (m : TypeMapper.Mapper) (d : SQLDialect) (k : List Char),
      (TypeMapper.getMergedMappings m d).map (fun mm => lookupA mm k) =
        some (match customLookup m (resolveD d) k with
          | some v => some v
          | none => lookupA (defaultTable (resolveD d)) k)) := by
  refine ⟨?_, ?_, ?_⟩
  · intro m d k v d' k'
    unfold TypeMapper.addCustomMapping customLookup
    dsimp only
    rw [lookupA_setAssoc]
    by_cases hd : dialectKey d' = dialectKey d
    · rw [if_pos hd]
      dsimp only
      rw [lookupA_setAssoc]
      by_cases hk : k' = k.map lowerC
      · rw [if_pos hk, if_pos ⟨hd, hk⟩]
      · rw [if_neg hk, if_neg (by tauto), hd]
        cases hl : lookupA m.customMappings (dialectKey d) with
        | some t => simp [Option.getD]
        | none => simp [Option.getD, lookupA]
    · rw [if_neg hd, if_neg (by tauto)]
  · intro m d k d' k' hwf
    unfold TypeMapper.removeCustomMapping customLookup
    cases hl : lookupA m.customMappings (dialectKey d) with
    | none =>
      dsimp only
      by_cases hd : dialectKey d' = dialectKey d
      · by_cases hk : k' = k.map lowerC
        · rw [if_pos ⟨hd, hk⟩, hd, hl]
        · rw [if_neg (by tauto)]
      · rw [if_neg (by tauto)]
    | some cur =>
      dsimp only
      rw [lookupA_setAssoc]
      have hcurnd : (cur.map Prod.fst).Nodup := hwf.2 _ (lookupA_mem _ _ _ hl)
      by_cases hd : dialectKey d' = dialectKey d
      · rw [if_pos hd]
        dsimp only
        rw [lookupA_delAssoc _ _ _ hcurnd]
        by_cases hk : k' = k.map lowerC
        · rw [if_pos hk, if_pos ⟨hd, hk⟩]
        · rw [if_neg hk, if_neg (by tauto), hd, hl]
      · rw [if_neg hd, if_neg (by tauto)]
  · intro m d k
    cases d
    · exact congrArg some (merged_lookup_aux m .MYSQL k _ rfl)
    · exact congrArg some (merged_lookup_aux m .POSTGRESQL k _ rfl)
    · exact congrArg some (merged_lookup_aux m .SQLITE k _ rfl)
    · exact congrArg some (merged_lookup_aux m .MYSQL k _ rfl)

/-- C10 witness: the frame facts at a concrete mapper. -/
theorem typeMapper_no_builtin_mutation_witness :
    customLookup (TypeMapper.addCustomMapping ⟨[], false⟩ .MYSQL (cs "GEOMETRY") (cs "string"))
      .MYSQL (cs "geometry") = some (cs "string") ∧
    customLookup (TypeMapper.removeCustomMapping
        (TypeMapper.addCustomMapping ⟨[], false⟩ .MYSQL (cs "GEOMETRY") (cs "string"))
        .MYSQL (cs "geometry"))
      .MYSQL (cs "geometry") = none ∧
    (TypeMapper.getMergedMappings ⟨[], false⟩ .AUTO).map (fun mm => lookupA mm (cs "int")) =
      some (some (cs "number")) := by
  refine ⟨?_, ?_, ?_⟩
  · exact (typeMapper_no_builtin_mutation.1 ⟨[], false⟩ .MYSQL (cs "GEOMETRY") (cs "string")
      .MYSQL (cs "geometry")).trans (by decide)
  · exact ((typeMapper_no_builtin_mutation.2.1
      (TypeMapper.addCustomMapping ⟨[], false⟩ .MYSQL (cs "GEOMETRY") (cs "string"))
      .MYSQL (cs "geometry") .MYSQL (cs "geometry") (by constructor <;> decide)).trans (by decide))
  · exact (typeMapper_no_builtin_mutation.2.2 ⟨[], false⟩ .AUTO (cs "int")).trans (by decide)

theorem stripWs_append (a b : List Char) : stripWs (a ++ b) = stripWs a ++ stripWs b := by
  simp [stripWs, List.filter_append]

theorem stripWs_cons (c : Char) (rest : List Char) :
    stripWs (c :: rest) = stripWs [c] ++ stripWs rest := by
  by_cases hc : isJsSpace c <;> simp [stripWs, List.filter_cons, hc]

theorem stripWs_dropWhile (l : List Char) :
    stripWs (l.dropWhile isJsSpace) = stripWs l := by
  induction l with
  | nil => rfl
  | cons c rest ih =>
    by_cases hc : isJsSpace c
    · rw [List.dropWhile_cons_of_pos hc, ih]
      simp [stripWs, List.filter_cons, hc]
    · rw [List.dropWhile_cons_of_neg hc]

theorem stripWs_reverse (l : List Char) : stripWs l.reverse = (stripWs l).reverse := by
  simp [stripWs, List.filter_reverse]

theorem stripWs_trimL (l : List Char) : stripWs (trimL l) = stripWs l := by
  unfold trimL
  rw [stripWs_reverse, stripWs_dropWhile, stripWs_reverse, List.reverse_reverse,
    stripWs_dropWhile]

theorem interComma_concat (defs : List (List Char)) (x : List Char) (h : defs ≠ []) :
    interComma (defs ++ [x]) = interComma defs ++ ',' :: x := by
  induction defs with
  | nil => exact absurd rfl h
  | cons a rest ih =>
    cases rest with
    | nil => rfl
    | cons b rest2 =>
      have ihh : interComma ((b :: rest2) ++ [x]) = interComma (b :: rest2) ++ ',' :: x :=
        ih (by simp)
      simp only [List.cons_append] at ihh ⊢
      simp only [interComma]
      rw [ihh]
      simp [List.append_assoc]

theorem strip_inter_snoc (defs : List (List Char)) (x y : List Char) :
    stripWs (interComma (defs ++ [x ++ y])) =
      stripWs (interComma (defs ++ [x])) ++ stripWs y := by
  cases defs with
  | nil => simp [interComma, stripWs_append]
  | cons a rest =>
    rw [interComma_concat _ _ (by simp), interComma_concat _ _ (by simp)]
    have hcomma : isJsSpace ',' = false := by decide
    simp [stripWs, List.filter_append, List.filter_cons, hcomma, List.append_assoc]

theorem strip_inter_trim (defs : List (List Char)) (x : List Char) :
    stripWs (interComma (defs ++ [trimL x])) = stripWs (interComma (defs ++ [x])) := by
  cases defs with
  | nil => simp [interComma, stripWs_trimL]
  | cons a rest =>
    rw [interComma_concat _ _ (by simp), interComma_concat _ _ (by simp)]
    have hcomma : isJsSpace ',' = false := by decide
    have ht := stripWs_trimL x
    simp [stripWs, List.filter_append, List.filter_cons, hcomma] at ht ⊢
    rw [ht]

theorem splitGo_strip (l : List Char) : ∀ prev inQ qc depth cur defs,
    stripWs (interComma (FieldParser.splitGo l prev inQ qc depth cur defs)) =
        stripWs (interComma (defs ++ [cur])) ++ stripWs l ∨
    stripWs (interComma (FieldParser.splitGo l prev inQ qc depth cur defs)) ++ [','] =
        stripWs (interComma (defs ++ [cur])) ++ stripWs l := by
  induction l with
  | nil =>
    intro prev inQ qc depth cur defs
    unfold FieldParser.splitGo
    split
    · next hemp =>
      have htc : trimL cur = [] := by
        cases htc : trimL cur with
        | nil => rfl
        | cons a b => rw [htc] at hemp; simp at hemp
      have hcur : stripWs cur = [] := by
        have := stripWs_trimL cur
        rw [htc] at this
        exact this.symm
      cases defs with
      | nil =>
        refine Or.inl ?_
        simp only [List.nil_append, interComma, hcur]
      | cons d ds =>
        refine Or.inr ?_
        rw [interComma_concat _ _ (by simp), stripWs_append, stripWs_cons, hcur]
        have h1 : stripWs [','] = [','] := by decide
        have h0 : stripWs ([] : List Char) = [] := rfl
        rw [h1, h0]
        simp
    · refine Or.inl ?_
      rw [strip_inter_trim]
      have h0 : stripWs ([] : List Char) = [] := rfl
      rw [h0]
      simp
  | cons c rest ih =>
    intro prev inQ qc depth cur defs
    unfold FieldParser.splitGo
    dsimp only
    split
    · next hcond =>
      have hc : c = ',' := by
        rw [Bool.and_eq_true] at hcond
        exact of_decide_eq_true hcond.2
      subst hc
      have hE : stripWs (interComma ((defs ++ [trimL cur]) ++ [[]])) =
          stripWs (interComma (defs ++ [cur])) ++ [','] := by
        rw [interComma_concat _ _ (by simp), stripWs_append, strip_inter_trim]
        have h1 : stripWs (',' :: ([] : List Char)) = [','] := by decide
        rw [h1]
      have hR : stripWs (',' :: rest) = [','] ++ stripWs rest := by
        rw [stripWs_cons]
        have h1 : stripWs [','] = [','] := by decide
        rw [h1]
      rcases ih (some ',')
          (FieldParser.splitStep ',' prev inQ qc depth).1
          (FieldParser.splitStep ',' prev inQ qc depth).2.1
          (FieldParser.splitStep ',' prev inQ qc depth).2.2
          [] (defs ++ [trimL cur]) with hih | hih
      · refine Or.inl ?_
        rw [hih, hE, hR, List.append_assoc]
      · refine Or.inr ?_
        rw [hih, hE, hR, List.append_assoc]
    · have hR : stripWs (c :: rest) = stripWs [c] ++ stripWs rest := stripWs_cons c rest
      rcases ih (some c)
          (FieldParser.splitStep c prev inQ qc depth).1
          (FieldParser.splitStep c prev inQ qc depth).2.1
          (FieldParser.splitStep c prev inQ qc depth).2.2
          (cur ++ [c]) defs with hih | hih
      · refine Or.inl ?_
        rw [hih, strip_inter_snoc, hR, List.append_assoc]
      · refine Or.inr ?_
        rw [hih, strip_inter_snoc, hR, List.append_assoc]

theorem parseFieldsGo_length : ∀ (segs : List (List Char)) (i : Nat)
    (acc : List FieldSchema) l,
    FieldParser.parseFieldsGo segs i acc = .ok l →
    l.length = acc.length + (segs.filter
      (fun seg => !(trimL seg).isEmpty &&
        !FieldParser.isTableLevelConstraint (trimL seg))).length := by
  intro segs
  induction segs with
  | nil =>
    intro i acc l h
    simp only [FieldParser.parseFieldsGo] at h
    obtain rfl := Except.ok.inj h
    simp
  | cons seg rest ih =>
    intro i acc l h
    unfold FieldParser.parseFieldsGo at h
    dsimp only at h
    by_cases hemp : (trimL seg).isEmpty = true
    · rw [if_pos hemp] at h
      rw [List.filter_cons_of_neg (by simp [hemp])]
      exact ih _ _ _ h
    · have he : (trimL seg).isEmpty = false := by
        cases hgg : (trimL seg).isEmpty
        · rfl
        · exact absurd hgg hemp
      rw [if_neg hemp] at h
      by_cases htlc : FieldParser.isTableLevelConstraint (trimL seg) = true
      · rw [if_pos htlc] at h
        rw [List.filter_cons_of_neg (by simp [htlc])]
        exact ih _ _ _ h
      · have ht : FieldParser.isTableLevelConstraint (trimL seg) = false := by
          cases hgg : FieldParser.isTableLevelConstraint (trimL seg)
          · rfl
          · exact absurd hgg htlc
        rw [if_neg htlc] at h
        cases hp : FieldParser.parseField (trimL seg) with
        | error e => rw [hp] at h; simp at h
        | ok f0 =>
          rw [hp] at h
          dsimp only at h
          have hlen := ih _ _ _ h
          rw [List.filter_cons_of_pos (by simp [he, ht])]
          simp only [List.length_append, List.length_cons, List.length_nil] at hlen ⊢
          omega

/-- C4 (amended): the count of non-empty split segments after discarding
table-level-constraint segments equals parseFields' field count; and
rejoining all split segments with commas reproduces the original field-list
text modulo whitespace, except that a trailing comma followed only by
whitespace is dropped (the final blank segment is never pushed). -/
theorem parseFields_split_count_rejoin :
    (∀ fs l, FieldParser.parseFields fs = .ok l →
      l.length = ((FieldParser.splitFieldDefinitions fs).filter
        (fun seg => !(trimL seg).isEmpty &&
          !FieldParser.isTableLevelConstraint (trimL seg))).length) ∧
    (∀ fs, stripWs (interComma (FieldParser.splitFieldDefinitions fs)) = stripWs fs ∨
      stripWs (interComma (FieldParser.splitFieldDefinitions fs)) ++ [','] = stripWs fs) := by
  constructor
  · intro fs l h
    unfold FieldParser.parseFields at h
    split at h
    · simp at h
    · simpa using parseFieldsGo_length _ _ _ _ h
  · intro fs
    have hinv := splitGo_strip fs none false none 0 [] []
    unfold FieldParser.splitFieldDefinitions
    simpa [interComma, stripWs] using hinv

/-- C4 witness: the segment count applied to a concrete field list. -/
theorem parseFields_split_count_rejoin_witness :
    ((FieldParser.splitFieldDefinitions (cs "id INT, PRIMARY KEY (id), name TEXT")).filter
      (fun seg => !(trimL seg).isEmpty &&
        !FieldParser.isTableLevelConstraint (trimL seg))).length = 2 := by
  have h2 : (FieldParser.parseFields (cs "id INT, PRIMARY KEY (id), name TEXT")).map
      List.length = .ok 2 := by decide
  cases hp : FieldParser.parseFields (cs "id INT, PRIMARY KEY (id), name TEXT") with
  | error e => rw [hp] at h2; simp [Except.map] at h2
  | ok l =>
    rw [hp] at h2
    simp only [Except.map] at h2
    rw [← parseFields_split_count_rejoin.1 _ l hp]
    exact Except.ok.inj h2

theorem captureFields_depth1_aux : ∀ (fs : List Char) (g : Bool) (t : List Char),
    depth1Go fs g = true →
    SQLParser.captureFields g (fs ++ ')' :: t) = some (fs, t) := by
  intro fs
  induction fs with
  | nil =>
    intro g t h
    have hg : g = false := by
      cases g
      · rfl
      · simp [depth1Go] at h
    subst hg
    simp [SQLParser.captureFields]
  | cons c fs ih =>
    intro g t h
    cases g with
    | false =>
      unfold depth1Go at h
      by_cases hc : c = '('
      · subst hc
        rw [if_pos rfl] at h
        have hrec := ih true t h
        simp [SQLParser.captureFields, hrec]
      · by_cases hc2 : c = ')'
        · rw [if_neg hc, if_pos hc2] at h
          simp at h
        · rw [if_neg hc, if_neg hc2] at h
          have hrec := ih false t h
          simp [SQLParser.captureFields, hc, hc2, hrec]
    | true =>
      unfold depth1Go at h
      by_cases hc : c = ')'
      · subst hc
        rw [if_pos rfl] at h
        have hrec := ih false t h
        simp [SQLParser.captureFields, hrec]
      · by_cases hc2 : c = '('
        · rw [if_neg hc, if_pos hc2] at h
          simp at h
        · rw [if_neg hc, if_neg hc2] at h
          have hrec := ih true t h
          simp [SQLParser.captureFields, hc, hrec]

theorem depth1_balanced : ∀ (fs : List Char) (g : Bool),
    depth1Go fs g = true → balGo fs (if g then 1 else 0) = true := by
  intro fs
  induction fs with
  | nil =>
    intro g h
    cases g
    · rfl
    · simp [depth1Go] at h
  | cons c fs ih =>
    intro g h
    cases g with
    | false =>
      unfold depth1Go at h
      by_cases hc : c = '('
      · subst hc
        rw [if_pos rfl] at h
        have := ih true h
        simpa [balGo] using this
      · by_cases hc2 : c = ')'
        · rw [if_neg hc, if_pos hc2] at h
          simp at h
        · rw [if_neg hc, if_neg hc2] at h
          have := ih false h
          simpa [balGo, hc, hc2] using this
    | true =>
      unfold depth1Go at h
      by_cases hc : c = ')'
      · subst hc
        rw [if_pos rfl] at h
        have := ih false h
        simpa [balGo] using this
      · by_cases hc2 : c = '('
        · rw [if_neg hc, if_pos hc2] at h
          simp at h
        · rw [if_neg hc, if_neg hc2] at h
          have := ih true h
          simpa [balGo, hc, hc2] using this

/-- C1 (amended): for every field-list text whose nested parentheses have
depth at most one, the CREATE_TABLE_REGEX capture is exactly the text between
the statement's outer parentheses and has balanced parentheses; a depth-one
field list also runs end-to-end through `parse`.  For depth two and beyond
the property fails (see the counterexample). -/
theorem captureFields_depth1_balanced :
    (∀ fs t, depth1Parens fs = true →
      SQLParser.captureFields false (fs ++ ')' :: t) = some (fs, t) ∧
        balancedParens fs = true) ∧
    SQLParser.parse (cs "CREATE TABLE t (a DECIMAL(10,2), b INT);") =
      .ok [⟨cs "t", cs "a DECIMAL(10,2), b INT", 1,
        cs "CREATE TABLE t (a DECIMAL(10,2), b INT);"⟩] := by
  refine ⟨?_, by decide⟩
  intro fs t h
  exact ⟨captureFields_depth1_aux fs false t h, depth1_balanced fs false h⟩

/-- C1 witness: the capture property applied to a depth-one field list. -/
theorem captureFields_depth1_balanced_witness :
    SQLParser.captureFields false (cs "a DECIMAL(10,2)" ++ ')' :: []) =
      some (cs "a DECIMAL(10,2)", []) ∧
    balancedParens (cs "a DECIMAL(10,2)") = true :=
  captureFields_depth1_balanced.1 (cs "a DECIMAL(10,2)") [] (by decide)

theorem matchCi_of_zip : ∀ (pat pre z : List Char), pat.length = pre.length →
    ((pat.zip pre).all (fun pr => ciEqC pr.1 pr.2)) = true →
    matchCi pat (pre ++ z) = some (pre, z) := by
  intro pat
  induction pat with
  | nil =>
    intro pre z hlen _
    cases pre with
    | nil => rfl
    | cons a b => simp at hlen
  | cons p ps ih =>
    intro pre z hlen hzip
    cases pre with
    | nil => simp at hlen
    | cons c pre2 =>
      simp only [List.zip_cons_cons, List.all_cons, Bool.and_eq_true] at hzip
      simp only [List.length_cons, Nat.succ.injEq] at hlen
      simp only [List.cons_append, matchCi, hzip.1, if_pos, List.append_eq]
      rw [ih pre2 z hlen hzip.2]

theorem wsSome_space_head (z : List Char)
    (hz : ∀ c, z.head? = some c → isJsSpace c = false) :
    wsSome (' ' :: z) = some ([' '], z) := by
  cases z with
  | nil => rfl
  | cons c rest =>
    have hc := hz c rfl
    simp [wsSome, wsMany, List.takeWhile_cons, List.dropWhile_cons, hc,
      show isJsSpace (Char.ofNat 32) = true from by decide]

theorem takeWhile_all_append {p : Char → Bool} : ∀ (l z : List Char), l.all p = true →
    (l ++ z).takeWhile p = l ++ z.takeWhile p := by
  intro l
  induction l with
  | nil => intro z _; rfl
  | cons c rest ih =>
    intro z h
    rw [List.all_cons, Bool.and_eq_true] at h
    simp [List.takeWhile_cons, h.1, ih z h.2]

theorem dropWhile_all_append {p : Char → Bool} : ∀ (l z : List Char), l.all p = true →
    (l ++ z).dropWhile p = z.dropWhile p := by
  intro l
  induction l with
  | nil => intro z _; rfl
  | cons c rest ih =>
    intro z h
    rw [List.all_cons, Bool.and_eq_true] at h
    simp [List.dropWhile_cons, h.1, ih z h.2]

theorem trimL_cons_ws (w : Char) (z : List Char) (hw : isJsSpace w = true) :
    trimL (w :: z) = trimL z := by
  unfold trimL
  rw [List.dropWhile_cons_of_pos hw]

theorem all_imp {p q : Char → Bool} (h : ∀ c, p c = true → q c = true) :
    ∀ l : List Char, l.all p = true → l.all q = true := by
  intro l hl
  rw [List.all_eq_true] at hl ⊢
  exact fun c hc => h c (hl c hc)

theorem getLastD_all {p : Char → Bool} : ∀ (l : List Char) (d : Char),
    l.all p = true → p d = true → p (l.getLastD d) = true := by
  intro l
  induction l with
  | nil => intro d _ hd; exact hd
  | cons c r ih =>
    intro d hl _
    rw [List.all_cons, Bool.and_eq_true] at hl
    rw [List.getLastD_cons]
    exact ih c hl.2 hl.1

theorem edvLoop_cons (c : Char) (rest : List Char) (inQ : Bool) (qc : Option Char)
    (depth : Int) (acc : List Char) (prev : Char) :
    FieldParser.edvLoop (c :: rest) inQ qc depth acc prev =
      (if !inQ && (c = dqChar || c = sqChar) then
        FieldParser.edvLoop rest true (some c) depth (acc ++ [c]) c
      else if inQ && some c = qc && !(prev = bsChar) then
        FieldParser.edvLoop rest false none depth (acc ++ [c]) c
      else if inQ then FieldParser.edvLoop rest inQ qc depth (acc ++ [c]) c
      else if c = '(' then FieldParser.edvLoop rest false qc (depth + 1) (acc ++ [c]) c
      else if c = ')' then
        let depth2 := depth - 1
        let acc2 := acc ++ [c]
        if depth2 = 0 && acc2.contains '(' then
          if FieldParser.stopKwParen (trimL rest) then acc2
          else FieldParser.edvLoop rest false qc depth2 acc2 c
        else FieldParser.edvLoop rest false qc depth2 acc2 c
      else if depth = 0 then
        if isJsSpace c then
          let remaining := trimL (c :: rest)
          if FieldParser.stopKwWs remaining then
            if FieldParser.onUpdStarts remaining then
              match FieldParser.onUpdCapture remaining with
              | some tok => acc ++ cs " ON UPDATE " ++ tok
              | none => FieldParser.edvLoop rest false qc depth acc c
            else acc
          else FieldParser.edvLoop rest false qc depth (acc ++ [c]) c
        else FieldParser.edvLoop rest false qc depth (acc ++ [c]) c
      else FieldParser.edvLoop rest false qc depth (acc ++ [c]) c) := rfl

theorem edv_step_plain (c : Char) (rest acc : List Char) (prev : Char) (qc : Option Char)
    (hws : isJsSpace c = false) (hsq : ¬(c = sqChar)) (hdq : ¬(c = dqChar))
    (hop : ¬(c = '(')) (hcp : ¬(c = ')')) :
    FieldParser.edvLoop (c :: rest) false qc 0 acc prev =
      FieldParser.edvLoop rest false qc 0 (acc ++ [c]) c := by
  rw [edvLoop_cons]
  rw [if_neg (by simp [hsq, hdq])]
  rw [if_neg (by simp)]
  rw [if_neg (by simp)]
  rw [if_neg hop]
  rw [if_neg hcp]
  rw [if_pos rfl]
  rw [if_neg (by simp [hws])]

theorem edv_step_inq (c q : Char) (rest acc : List Char) (prev : Char) (hc : ¬(c = q)) :
    FieldParser.edvLoop (c :: rest) true (some q) 0 acc prev =
      FieldParser.edvLoop rest true (some q) 0 (acc ++ [c]) c := by
  rw [edvLoop_cons]
  rw [if_neg (by simp)]
  rw [if_neg (by simp [hc])]
  rw [if_pos rfl]

theorem edv_step_open (q : Char) (rest acc : List Char) (prev : Char)
    (hq : q = sqChar ∨ q = dqChar) :
    FieldParser.edvLoop (q :: rest) false none 0 acc prev =
      FieldParser.edvLoop rest true (some q) 0 (acc ++ [q]) q := by
  rw [edvLoop_cons]
  rw [if_pos (by rcases hq with rfl | rfl <;> simp)]

theorem edv_step_close (q : Char) (rest acc : List Char) (prev : Char)
    (hprev : ¬(prev = bsChar)) :
    FieldParser.edvLoop (q :: rest) true (some q) 0 acc prev =
      FieldParser.edvLoop rest false none 0 (acc ++ [q]) q := by
  rw [edvLoop_cons]
  rw [if_neg (by simp)]
  rw [if_pos (by simp [hprev])]

theorem ws_not_special (w : Char) (hw : isJsSpace w = true) :
    ¬(w = sqChar) ∧ ¬(w = dqChar) ∧ ¬(w = '(') ∧ ¬(w = ')') := by
  refine ⟨fun h => ?_, fun h => ?_, fun h => ?_, fun h => ?_⟩ <;>
    (rw [h] at hw; exact absurd hw (by decide))

theorem edv_step_stop (w : Char) (t acc : List Char) (prev : Char) (qc : Option Char)
    (hw : isJsSpace w = true)
    (hstop : FieldParser.stopKwWs (trimL (w :: t)) = true)
    (hupd : FieldParser.onUpdStarts (trimL (w :: t)) = false) :
    FieldParser.edvLoop (w :: t) false qc 0 acc prev = acc := by
  obtain ⟨hsq, hdq, hop, hcp⟩ := ws_not_special w hw
  rw [edvLoop_cons]
  rw [if_neg (by simp [hsq, hdq])]
  rw [if_neg (by simp)]
  rw [if_neg (by simp)]
  rw [if_neg hop]
  rw [if_neg hcp]
  rw [if_pos rfl]
  rw [if_pos hw]
  simp only [hstop, hupd, ite_true, ite_false, Bool.false_eq_true]

theorem edv_step_onupd (w : Char) (t acc u : List Char) (prev : Char) (qc : Option Char)
    (hw : isJsSpace w = true)
    (hstop : FieldParser.stopKwWs (trimL (w :: t)) = true)
    (hupd : FieldParser.onUpdStarts (trimL (w :: t)) = true)
    (hcap : FieldParser.onUpdCapture (trimL (w :: t)) = some u) :
    FieldParser.edvLoop (w :: t) false qc 0 acc prev = acc ++ cs " ON UPDATE " ++ u := by
  obtain ⟨hsq, hdq, hop, hcp⟩ := ws_not_special w hw
  rw [edvLoop_cons]
  rw [if_neg (by simp [hsq, hdq])]
  rw [if_neg (by simp)]
  rw [if_neg (by simp)]
  rw [if_neg hop]
  rw [if_neg hcp]
  rw [if_pos rfl]
  rw [if_pos hw]
  simp only [hstop, hupd, hcap, ite_true]

theorem edv_simple : ∀ (v t acc : List Char) (prev : Char) (qc : Option Char),
    v.all simpleVChar = true →
    FieldParser.edvLoop (v ++ t) false qc 0 acc prev =
      FieldParser.edvLoop t false qc 0 (acc ++ v) (v.getLastD prev) := by
  intro v
  induction v with
  | nil => intro t acc prev qc _; simp
  | cons c v3 ih =>
    intro t acc prev qc hall
    rw [List.all_cons, Bool.and_eq_true] at hall
    have hc := hall.1
    simp only [simpleVChar, Bool.and_eq_true, Bool.not_eq_true',
      decide_eq_false_iff_not] at hc
    obtain ⟨⟨⟨⟨hws, hsq⟩, hdq⟩, hop⟩, hcp⟩ := hc
    rw [List.cons_append, edv_step_plain c (v3 ++ t) acc prev qc hws hsq hdq hop hcp]
    rw [ih t (acc ++ [c]) c qc hall.2]
    rw [List.getLastD_cons, ← List.append_cons]

theorem edv_inquote (q : Char) : ∀ (w t acc : List Char) (prev : Char),
    w.all (fun c => !(c = q)) = true →
    FieldParser.edvLoop (w ++ t) true (some q) 0 acc prev =
      FieldParser.edvLoop t true (some q) 0 (acc ++ w) (w.getLastD prev) := by
  intro w
  induction w with
  | nil => intro t acc prev _; simp
  | cons c w3 ih =>
    intro t acc prev hall
    rw [List.all_cons, Bool.and_eq_true] at hall
    have hc : ¬(c = q) := by
      have := hall.1
      simp only [Bool.not_eq_true', decide_eq_false_iff_not] at this
      exact this
    rw [List.cons_append, edv_step_inq c q (w3 ++ t) acc prev hc]
    rw [ih t (acc ++ [c]) c hall.2]
    rw [List.getLastD_cons, ← List.append_cons]

theorem edv_quoted (q : Char) (w t acc : List Char) (prev : Char)
    (hq : q = sqChar ∨ q = dqChar)
    (hw : w.all (fun c => !(c = q) && !(c = bsChar)) = true) :
    FieldParser.edvLoop (q :: (w ++ q :: t)) false none 0 acc prev =
      FieldParser.edvLoop t false none 0 (acc ++ q :: (w ++ [q])) q := by
  have hnq : w.all (fun c => !(c = q)) = true :=
    all_imp (fun c hc => by rw [Bool.and_eq_true] at hc; exact hc.1) w hw
  have hnb : w.all (fun c => !(c = bsChar)) = true :=
    all_imp (fun c hc => by rw [Bool.and_eq_true] at hc; exact hc.2) w hw
  rw [edv_step_open q (w ++ q :: t) acc prev hq]
  rw [edv_inquote q w (q :: t) (acc ++ [q]) q hnq]
  have hprev : ¬(List.getLastD w q = bsChar) := by
    have hqb : (!(q = bsChar)) = true := by rcases hq with rfl | rfl <;> decide
    have := getLastD_all w q hnb hqb
    simpa using this
  rw [edv_step_close q t ((acc ++ [q]) ++ w) (List.getLastD w q) hprev]
  have : (((acc ++ [q]) ++ w) ++ [q]) = acc ++ q :: (w ++ [q]) := by simp
  rw [this]

theorem dropWhile_head_no {p : Char → Bool} (l : List Char)
    (h : ∀ c, l.head? = some c → p c = false) : l.dropWhile p = l := by
  cases l with
  | nil => rfl
  | cons c r => exact List.dropWhile_cons_of_neg (by simp [h c rfl])

theorem trimR_append_keep (k t : List Char)
    (hl : ∀ b, k.getLast? = some b → isJsSpace b = false) :
    ((k ++ t).reverse.dropWhile isJsSpace).reverse =
      k ++ (t.reverse.dropWhile isJsSpace).reverse := by
  rw [List.reverse_append, List.dropWhile_append]
  have hk : k.reverse.dropWhile isJsSpace = k.reverse :=
    dropWhile_head_no _ (fun c hc => hl c (by rwa [List.head?_reverse] at hc))
  by_cases he : (t.reverse.dropWhile isJsSpace).isEmpty = true
  · rw [if_pos he, hk, List.reverse_reverse]
    rw [List.isEmpty_iff] at he
    rw [he]
    simp
  · rw [if_neg he, List.reverse_append, List.reverse_reverse]

theorem trimL_append_keep (k t : List Char) (hne : k ≠ [])
    (hh : ∀ c, k.head? = some c → isJsSpace c = false)
    (hl : ∀ b, k.getLast? = some b → isJsSpace b = false) :
    trimL (k ++ t) = k ++ (t.reverse.dropWhile isJsSpace).reverse := by
  unfold trimL
  have hd : (k ++ t).dropWhile isJsSpace = k ++ t := by
    apply dropWhile_head_no
    intro c hc
    cases k with
    | nil => exact absurd rfl hne
    | cons a kr =>
      apply hh c
      rw [List.cons_append] at hc
      simpa using hc
  rw [hd, trimR_append_keep k t hl]

theorem trimL_eq_self_of (l : List Char) (hne : l ≠ [])
    (hh : ∀ c, l.head? = some c → isJsSpace c = false)
    (hl : ∀ b, l.getLast? = some b → isJsSpace b = false) : trimL l = l := by
  have := trimL_append_keep l [] hne hh hl
  simpa using this

theorem trimR_head (t : List Char) (ht : ∀ c, t.head? = some c → isJsSpace c = true) :
    ∀ c, ((t.reverse.dropWhile isJsSpace).reverse).head? = some c → isJsSpace c = true := by
  intro c hc
  have hsuf : t.reverse.dropWhile isJsSpace <:+ t.reverse := List.dropWhile_suffix _
  have hpre : (t.reverse.dropWhile isJsSpace).reverse <+: t := by
    have := hsuf.reverse
    rwa [List.reverse_reverse] at this
  obtain ⟨s, hs⟩ := hpre
  apply ht c
  rw [← hs]
  cases hh : (t.reverse.dropWhile isJsSpace).reverse with
  | nil => rw [hh] at hc; cases hc
  | cons a b =>
    rw [hh] at hc
    rw [List.cons_append]
    exact hc

theorem stripSimpleQuotes_nonquote (v : List Char)
    (h1 : ¬(v.head? = some sqChar)) (h2 : ¬(v.head? = some dqChar)) :
    FieldParser.stripSimpleQuotes v = v := by
  unfold FieldParser.stripSimpleQuotes
  rw [if_neg (by simp [h1]), if_neg (by simp [h2])]

theorem stripSimpleQuotes_quoted (q : Char) (w : List Char)
    (hq : q = sqChar ∨ q = dqChar) (hns : w.contains ' ' = false) :
    FieldParser.stripSimpleQuotes (q :: (w ++ [q])) = w := by
  have hinner : ((q :: (w ++ [q])).drop 1).dropLast = w := by
    simp
  have hlast : (q :: (w ++ [q])).getLast? = some q := by
    rw [show q :: (w ++ [q]) = (q :: w) ++ [q] from rfl]
    exact List.getLast?_concat _
  have hmem : Char.ofNat 32 ∉ w := by
    intro hin
    rw [List.contains_eq_any_beq] at hns
    have : (w.any fun x => Char.ofNat 32 == x) = true := by
      rw [List.any_eq_true]
      exact ⟨Char.ofNat 32, hin, by simp⟩
    rw [this] at hns
    cases hns
  unfold FieldParser.stripSimpleQuotes
  rcases hq with rfl | rfl
  · rw [if_pos (by simp [hinner, hlast, hmem])]
    exact hinner
  · rw [if_neg (by simp [hinner, hlast, hmem, show ¬(dqChar = sqChar) from by decide]),
      if_pos (by simp [hinner, hlast, hmem])]
    exact hinner

theorem ciStarts_pre (pat pre u : List Char) (hlen : pat.length = pre.length)
    (hzip : ((pat.zip pre).all (fun pr => ciEqC pr.1 pr.2)) = true) :
    FieldParser.ciStarts pat (pre ++ u) = true := by
  unfold FieldParser.ciStarts
  rw [matchCi_of_zip pat pre u hlen hzip]
  rfl

theorem ciStartsPair_pre (w1 w2 pre1 pre2 u : List Char)
    (hlen1 : w1.length = pre1.length)
    (hzip1 : ((w1.zip pre1).all (fun pr => ciEqC pr.1 pr.2)) = true)
    (hlen2 : w2.length = pre2.length)
    (hzip2 : ((w2.zip pre2).all (fun pr => ciEqC pr.1 pr.2)) = true)
    (hhead : ∀ c, (pre2 ++ u).head? = some c → isJsSpace c = false) :
    FieldParser.ciStartsPair w1 w2 (pre1 ++ (' ' :: (pre2 ++ u))) = true := by
  have h1 := matchCi_of_zip w1 pre1 (' ' :: (pre2 ++ u)) hlen1 hzip1
  have h2 := wsSome_space_head (pre2 ++ u) hhead
  have h3 := matchCi_of_zip w2 pre2 u hlen2 hzip2
  simp [FieldParser.ciStartsPair, h1, h2, h3]

theorem onUpd_false_head (c : Char) (z : List Char) (hc : ciEqC 'o' c = false) :
    FieldParser.onUpdStarts (c :: z) = false := by
  have hm : matchCi (cs "on") (c :: z) = none := by
    rw [show cs "on" = 'o' :: cs "n" from rfl, matchCi]
    rw [if_neg (by simp [hc])]
  simp [FieldParser.onUpdStarts, FieldParser.ciStartsPair, hm]

theorem onUpdCapture_pre (u z : List Char) (hu : u ≠ [])
    (hall : u.all (fun c => !isJsSpace c) = true)
    (hz : ∀ c, z.head? = some c → isJsSpace c = true) :
    FieldParser.onUpdCapture (cs "ON" ++ (' ' :: (cs "UPDATE" ++ (' ' :: (u ++ z))))) =
      some u := by
  have h1 := matchCi_of_zip (cs "on") (cs "ON") (' ' :: (cs "UPDATE" ++ (' ' :: (u ++ z))))
    (by decide) (by decide)
  have hhead2 : ∀ c, (cs "UPDATE" ++ (' ' :: (u ++ z))).head? = some c →
      isJsSpace c = false := by
    intro c hc
    rw [show cs "UPDATE" ++ (' ' :: (u ++ z)) = 'U' :: (cs "PDATE" ++ (' ' :: (u ++ z)))
      from rfl] at hc
    simp only [List.head?_cons, Option.some.injEq] at hc
    rw [← hc]
    decide
  have h2 := wsSome_space_head (cs "UPDATE" ++ (' ' :: (u ++ z))) hhead2
  have h3 := matchCi_of_zip (cs "update") (cs "UPDATE") (' ' :: (u ++ z))
    (by decide) (by decide)
  obtain ⟨u0, u3, rfl⟩ := List.exists_cons_of_ne_nil hu
  rw [List.all_cons, Bool.and_eq_true] at hall
  have hu0 : isJsSpace u0 = false := by
    have := hall.1
    simpa using this
  have hhead4 : ∀ c, ((u0 :: u3) ++ z).head? = some c → isJsSpace c = false := by
    intro c hc
    rw [List.cons_append] at hc
    simp only [List.head?_cons, Option.some.injEq] at hc
    rw [← hc]
    exact hu0
  have h4 := wsSome_space_head ((u0 :: u3) ++ z) hhead4
  have hall2 : ((u0 :: u3).all (fun c => !isJsSpace c)) = true := by
    rw [List.all_cons, Bool.and_eq_true]
    exact ⟨by simpa using hu0, hall.2⟩
  have hz0 : z.takeWhile (fun c => !isJsSpace c) = [] := by
    cases z with
    | nil => rfl
    | cons a b =>
      rw [List.takeWhile_cons_of_neg]
      simp [hz a rfl]
  have htake : ((u0 :: u3) ++ z).takeWhile (fun c => !isJsSpace c) = u0 :: u3 := by
    rw [takeWhile_all_append (u0 :: u3) z hall2, hz0, List.append_nil]
  have h5 : manySome (fun c => !isJsSpace c) ((u0 :: u3) ++ z) =
      some (u0 :: u3, ((u0 :: u3) ++ z).dropWhile (fun c => !isJsSpace c)) := by
    rw [List.cons_append, manySome]
    rw [if_pos (by simpa using hu0)]
    rw [← List.cons_append, htake]
  simp only [List.cons_append] at h1 h2 h3 h4 h5
  simp [FieldParser.onUpdCapture, h1, h2, h3, h4, h5]

theorem scanFirstP_cons {α : Type} (f : Option Char → List Char → Option α)
    (prev : Option Char) (c : Char) (rest : List Char) :
    FieldParser.scanFirstP f prev (c :: rest) =
      (match f prev (c :: rest) with
       | some x => some x
       | none => FieldParser.scanFirstP f (some c) rest) := rfl

theorem head_nonws (a : Char) (l : List Char) (ha : isJsSpace a = false) :
    ∀ c, (a :: l).head? = some c → isJsSpace c = false := by
  intro c hc
  injection hc with h
  rwa [← h]

theorem last_nonws (k : List Char) (a : Char) (hk : k.getLast? = some a)
    (ha : isJsSpace a = false) :
    ∀ b, k.getLast? = some b → isJsSpace b = false := by
  intro b hb
  rw [hk] at hb
  injection hb with h
  rwa [← h]

theorem findDefault_head (z : List Char)
    (hz : ∀ c, z.head? = some c → isJsSpace c = false) :
    FieldParser.scanFirstP FieldParser.defaultFinderAt none (cs "DEFAULT " ++ z) =
      some (' ', z) := by
  have hm : matchCi (cs "default") (cs "DEFAULT" ++ (' ' :: z)) =
      some (cs "DEFAULT", ' ' :: z) :=
    matchCi_of_zip (cs "default") (cs "DEFAULT") (' ' :: z) (by decide) (by decide)
  have hw := wsSome_space_head z hz
  have hf : FieldParser.defaultFinderAt none ('D' :: (cs "EFAULT" ++ (' ' :: z))) =
      some (' ', z) := by
    unfold FieldParser.defaultFinderAt
    rw [if_neg (by simp)]
    rw [show 'D' :: (cs "EFAULT" ++ (' ' :: z)) = cs "DEFAULT" ++ (' ' :: z) from rfl]
    simp [hm, hw]
  rw [show cs "DEFAULT " ++ z = 'D' :: (cs "EFAULT" ++ (' ' :: z)) from rfl]
  rw [scanFirstP_cons, hf]

theorem extractDefault_shape (z : List Char)
    (hz : ∀ c, z.head? = some c → isJsSpace c = false) :
    FieldParser.extractDefaultValue (cs "DEFAULT " ++ z) =
      some (FieldParser.stripSimpleQuotes
        (trimL (FieldParser.edvLoop z false none 0 [] ' '))) := by
  unfold FieldParser.extractDefaultValue
  rw [findDefault_head z hz]

theorem stop_facts (k u : List Char)
    (hk : k = cs "COMMENT" ∨ k = cs "NOT NULL" ∨ k = cs "NULL" ∨ k = cs "PRIMARY KEY" ∨
      k = cs "UNIQUE" ∨ k = cs "AUTO_INCREMENT" ∨ k = cs ",") :
    FieldParser.stopKwWs (k ++ u) = true ∧ FieldParser.onUpdStarts (k ++ u) = false := by
  rcases hk with rfl | rfl | rfl | rfl | rfl | rfl | rfl
  · refine ⟨?_, ?_⟩
    · have h := ciStarts_pre (cs "comment") (cs "COMMENT") u (by decide) (by decide)
      simp [FieldParser.stopKwWs, h]
    · rw [show cs "COMMENT" ++ u = 'C' :: (cs "OMMENT" ++ u) from rfl]
      exact onUpd_false_head _ _ (by decide)
  · refine ⟨?_, ?_⟩
    · have h := ciStartsPair_pre (cs "not") (cs "null") (cs "NOT") (cs "NULL") u
        (by decide) (by decide) (by decide) (by decide)
        (fun c hc => head_nonws 'N' (cs "ULL" ++ u) (by decide) c hc)
      rw [show cs "NOT" ++ (' ' :: (cs "NULL" ++ u)) = cs "NOT NULL" ++ u from rfl] at h
      simp [FieldParser.stopKwWs, h]
    · rw [show cs "NOT NULL" ++ u = 'N' :: (cs "OT NULL" ++ u) from rfl]
      exact onUpd_false_head _ _ (by decide)
  · refine ⟨?_, ?_⟩
    · have h := ciStarts_pre (cs "null") (cs "NULL") u (by decide) (by decide)
      simp [FieldParser.stopKwWs, h]
    · rw [show cs "NULL" ++ u = 'N' :: (cs "ULL" ++ u) from rfl]
      exact onUpd_false_head _ _ (by decide)
  · refine ⟨?_, ?_⟩
    · have h := ciStartsPair_pre (cs "primary") (cs "key") (cs "PRIMARY") (cs "KEY") u
        (by decide) (by decide) (by decide) (by decide)
        (fun c hc => head_nonws 'K' (cs "EY" ++ u) (by decide) c hc)
      rw [show cs "PRIMARY" ++ (' ' :: (cs "KEY" ++ u)) = cs "PRIMARY KEY" ++ u from rfl] at h
      simp [FieldParser.stopKwWs, h]
    · rw [show cs "PRIMARY KEY" ++ u = 'P' :: (cs "RIMARY KEY" ++ u) from rfl]
      exact onUpd_false_head _ _ (by decide)
  · refine ⟨?_, ?_⟩
    · have h := ciStarts_pre (cs "unique") (cs "UNIQUE") u (by decide) (by decide)
      simp [FieldParser.stopKwWs, h]
    · rw [show cs "UNIQUE" ++ u = 'U' :: (cs "NIQUE" ++ u) from rfl]
      exact onUpd_false_head _ _ (by decide)
  · refine ⟨?_, ?_⟩
    · have h := ciStarts_pre (cs "auto_increment") (cs "AUTO_INCREMENT") u
        (by decide) (by decide)
      simp [FieldParser.stopKwWs, h]
    · rw [show cs "AUTO_INCREMENT" ++ u = 'A' :: (cs "UTO_INCREMENT" ++ u) from rfl]
      exact onUpd_false_head _ _ (by decide)
  · refine ⟨?_, ?_⟩
    · have h : startsList (cs ",") (cs "," ++ u) = true := by
        rw [show cs "," ++ u = ',' :: u from rfl]
        simp [startsList]
      simp [FieldParser.stopKwWs, h]
    · rw [show cs "," ++ u = ',' :: u from rfl]
      exact onUpd_false_head _ _ (by decide)

theorem all_nonws_of_simple (v : List Char) (h : v.all simpleVChar = true) :
    v.all (fun c => !isJsSpace c) = true :=
  all_imp (fun c hc => by
    simp only [simpleVChar, Bool.and_eq_true] at hc
    exact hc.1.1.1.1) v h

theorem head_nonws_of_all (v : List Char) (h : v.all (fun c => !isJsSpace c) = true) :
    ∀ b, v.head? = some b → isJsSpace b = false := by
  intro b hb
  cases v with
  | nil => cases hb
  | cons c v3 =>
    rw [List.all_cons, Bool.and_eq_true] at h
    injection hb with h2
    rw [← h2]
    simpa using h.1

theorem last_nonws_of_all (v : List Char) (h : v.all (fun c => !isJsSpace c) = true) :
    ∀ b, v.getLast? = some b → isJsSpace b = false := by
  intro b hb
  have h2 := getLastD_all v 'x' h (by decide)
  rw [List.getLastD_eq_getLast?, hb] at h2
  simpa using h2

theorem head_opt_nonws (l : List Char) (a : Char) (h : l.head? = some a)
    (ha : isJsSpace a = false) : ∀ c, l.head? = some c → isJsSpace c = false := by
  intro c hc
  rw [h] at hc
  injection hc with h2
  rwa [← h2]

theorem contains_false_of_all (w : List Char) (x : Char)
    (h : w.all (fun c => !(c = x)) = true) : w.contains x = false := by
  rw [List.contains_eq_any_beq, Bool.eq_false_iff]
  intro hany
  rw [List.any_eq_true] at hany
  obtain ⟨a, ha, hax⟩ := hany
  rw [List.all_eq_true] at h
  have h2 := h a ha
  simp only [beq_iff_eq] at hax
  simp only [Bool.not_eq_true', decide_eq_false_iff_not] at h2
  exact h2 hax.symm

theorem post_simple (v : List Char) (hne : v ≠ []) (hall : v.all simpleVChar = true) :
    FieldParser.stripSimpleQuotes (trimL v) = v := by
  have hnws := all_nonws_of_simple v hall
  have htr : trimL v = v :=
    trimL_eq_self_of v hne (head_nonws_of_all v hnws) (last_nonws_of_all v hnws)
  rw [htr]
  obtain ⟨c, v3, rfl⟩ := List.exists_cons_of_ne_nil hne
  rw [List.all_cons, Bool.and_eq_true] at hall
  have hc := hall.1
  simp only [simpleVChar, Bool.and_eq_true, Bool.not_eq_true',
    decide_eq_false_iff_not] at hc
  obtain ⟨⟨⟨⟨hws2, hsq⟩, hdq⟩, hop⟩, hcp⟩ := hc
  apply stripSimpleQuotes_nonquote
  · simp [hsq]
  · simp [hdq]

theorem edv_stoptail (t acc : List Char) (prev : Char) (qc : Option Char)
    (ht : isStopTail t = true) :
    FieldParser.edvLoop t false qc 0 acc prev = acc := by
  cases t with
  | nil => rfl
  | cons w t0 =>
    simp only [isStopTail, Bool.and_eq_true, Bool.not_eq_true'] at ht
    exact edv_step_stop w t0 acc prev qc ht.1.1 ht.1.2 ht.2

theorem kw_shape (k : List Char)
    (hk : k = cs "COMMENT" ∨ k = cs "NOT NULL" ∨ k = cs "NULL" ∨ k = cs "PRIMARY KEY" ∨
      k = cs "UNIQUE" ∨ k = cs "AUTO_INCREMENT" ∨ k = cs ",") :
    k ≠ [] ∧ (∀ c, k.head? = some c → isJsSpace c = false) ∧
      (∀ b, k.getLast? = some b → isJsSpace b = false) := by
  rcases hk with rfl | rfl | rfl | rfl | rfl | rfl | rfl <;>
    exact ⟨by decide, head_opt_nonws _ _ rfl (by decide), last_nonws _ _ rfl (by decide)⟩

theorem default_null_kept (t : List Char) (ht : isStopTail t = true) :
    FieldParser.extractDefaultValue (cs "DEFAULT NULL" ++ t) = some (cs "NULL") := by
  rw [show cs "DEFAULT NULL" ++ t = cs "DEFAULT " ++ (cs "NULL" ++ t) from rfl]
  rw [extractDefault_shape (cs "NULL" ++ t) (head_opt_nonws _ 'N' rfl (by decide))]
  rw [edv_simple (cs "NULL") t [] ' ' none (by decide)]
  rw [edv_stoptail t ([] ++ cs "NULL") ((cs "NULL").getLastD ' ') none ht]
  decide

theorem default_quoted_stripped (q : Char) (w t : List Char)
    (hq : q = sqChar ∨ q = dqChar)
    (hw : w.all (fun c => !(c = q) && !(c = bsChar) && !(c = ' ')) = true)
    (ht : isStopTail t = true) :
    FieldParser.extractDefaultValue (cs "DEFAULT " ++ (q :: (w ++ q :: t))) = some w := by
  have hz : ∀ c, (q :: (w ++ q :: t)).head? = some c → isJsSpace c = false := by
    intro c hc
    injection hc with h
    rw [← h]
    rcases hq with rfl | rfl <;> decide
  rw [extractDefault_shape _ hz]
  rw [edv_quoted q w t [] ' ' hq (all_imp (fun c hc => by
    rw [Bool.and_eq_true] at hc
    exact hc.1) w hw)]
  rw [edv_stoptail t ([] ++ q :: (w ++ [q])) q none ht]
  rw [List.nil_append]
  have hhead : ∀ c, (q :: (w ++ [q])).head? = some c → isJsSpace c = false := by
    intro c hc
    injection hc with h
    rw [← h]
    rcases hq with rfl | rfl <;> decide
  have hlastq : (q :: (w ++ [q])).getLast? = some q := by
    rw [show q :: (w ++ [q]) = (q :: w) ++ [q] from rfl]
    exact List.getLast?_concat _
  have hlast : ∀ b, (q :: (w ++ [q])).getLast? = some b → isJsSpace b = false :=
    last_nonws _ q hlastq (by rcases hq with rfl | rfl <;> decide)
  rw [trimL_eq_self_of _ (by simp) hhead hlast]
  have hcont : w.contains ' ' = false :=
    contains_false_of_all w ' ' (all_imp (fun c hc => by
      rw [Bool.and_eq_true] at hc
      exact hc.2) w hw)
  rw [stripSimpleQuotes_quoted q w hq hcont]

theorem default_keyword_stop (v k t : List Char) (hv : v ≠ [])
    (hvall : v.all simpleVChar = true)
    (hk : k = cs "COMMENT" ∨ k = cs "NOT NULL" ∨ k = cs "NULL" ∨ k = cs "PRIMARY KEY" ∨
      k = cs "UNIQUE" ∨ k = cs "AUTO_INCREMENT" ∨ k = cs ",") :
    FieldParser.extractDefaultValue (cs "DEFAULT " ++ (v ++ (' ' :: (k ++ t)))) = some v := by
  obtain ⟨c, v3, rfl⟩ := List.exists_cons_of_ne_nil hv
  have hnws := all_nonws_of_simple _ hvall
  have hz : ∀ a, ((c :: v3) ++ (' ' :: (k ++ t))).head? = some a → isJsSpace a = false := by
    intro a ha
    rw [List.cons_append] at ha
    injection ha with h
    rw [← h]
    exact head_nonws_of_all _ hnws c rfl
  rw [extractDefault_shape _ hz]
  rw [edv_simple (c :: v3) (' ' :: (k ++ t)) [] ' ' none hvall]
  obtain ⟨hkne, hkh, hkl⟩ := kw_shape k hk
  have htr : trimL (' ' :: (k ++ t)) =
      k ++ (t.reverse.dropWhile isJsSpace).reverse := by
    rw [trimL_cons_ws ' ' (k ++ t) (by decide)]
    exact trimL_append_keep k t hkne hkh hkl
  obtain ⟨hstop, hupd⟩ := stop_facts k ((t.reverse.dropWhile isJsSpace).reverse) hk
  rw [edv_step_stop ' ' (k ++ t) ([] ++ (c :: v3)) ((c :: v3).getLastD ' ') none
    (by decide) (by rw [htr]; exact hstop) (by rw [htr]; exact hupd)]
  rw [List.nil_append]
  exact congrArg some (post_simple (c :: v3) hv hvall)

theorem default_end_of_input (v : List Char) (hv : v ≠ [])
    (hvall : v.all simpleVChar = true) :
    FieldParser.extractDefaultValue (cs "DEFAULT " ++ v) = some v := by
  have hnws := all_nonws_of_simple _ hvall
  rw [extractDefault_shape v (head_nonws_of_all v hnws)]
  have h3 : FieldParser.edvLoop v false none 0 [] ' ' = v := by
    have h4 := edv_simple v [] [] ' ' none hvall
    rw [List.append_nil] at h4
    simpa using h4
  rw [h3]
  exact congrArg some (post_simple v hv hvall)

theorem default_on_update (v u t : List Char) (hv : v ≠ [])
    (hvall : v.all simpleVChar = true) (hu : u ≠ [])
    (huall : u.all (fun c => !isJsSpace c) = true)
    (ht : ∀ c, t.head? = some c → isJsSpace c = true) :
    FieldParser.extractDefaultValue
        (cs "DEFAULT " ++ (v ++ (' ' :: (cs "ON UPDATE " ++ (u ++ t))))) =
      some (v ++ (cs " ON UPDATE " ++ u)) := by
  obtain ⟨c, v3, rfl⟩ := List.exists_cons_of_ne_nil hv
  have hnws := all_nonws_of_simple _ hvall
  have hz : ∀ a, ((c :: v3) ++ (' ' :: (cs "ON UPDATE " ++ (u ++ t)))).head? = some a →
      isJsSpace a = false := by
    intro a ha
    rw [List.cons_append] at ha
    injection ha with h
    rw [← h]
    exact head_nonws_of_all _ hnws c rfl
  rw [extractDefault_shape _ hz]
  rw [edv_simple (c :: v3) (' ' :: (cs "ON UPDATE " ++ (u ++ t))) [] ' ' none hvall]
  have hkne : cs "ON UPDATE " ++ u ≠ [] := by
    rw [show cs "ON UPDATE " ++ u = 'O' :: (cs "N UPDATE " ++ u) from rfl]
    exact List.cons_ne_nil _ _
  have hkh : ∀ a, (cs "ON UPDATE " ++ u).head? = some a → isJsSpace a = false :=
    head_opt_nonws _ 'O' rfl (by decide)
  have hlastu : (cs "ON UPDATE " ++ u).getLast? = u.getLast? := by
    cases hu2 : u with
    | nil => exact absurd hu2 hu
    | cons a b => rw [List.getLast?_append_of_ne_nil _ (by simp)]
  have hkl : ∀ b, (cs "ON UPDATE " ++ u).getLast? = some b → isJsSpace b = false := by
    intro b hb
    rw [hlastu] at hb
    exact last_nonws_of_all u huall b hb
  have htr : trimL (' ' :: (cs "ON UPDATE " ++ (u ++ t))) =
      (cs "ON UPDATE " ++ u) ++ (t.reverse.dropWhile isJsSpace).reverse := by
    rw [trimL_cons_ws ' ' (cs "ON UPDATE " ++ (u ++ t)) (by decide)]
    rw [show cs "ON UPDATE " ++ (u ++ t) = (cs "ON UPDATE " ++ u) ++ t from
      (List.append_assoc _ _ _).symm]
    exact trimL_append_keep (cs "ON UPDATE " ++ u) t hkne hkh hkl
  have hsh : (cs "ON UPDATE " ++ u) ++ (t.reverse.dropWhile isJsSpace).reverse =
      cs "ON" ++ (' ' :: (cs "UPDATE" ++ (' ' ::
        (u ++ (t.reverse.dropWhile isJsSpace).reverse)))) := by
    rw [List.append_assoc]
    rfl
  have hpair := ciStartsPair_pre (cs "on") (cs "update") (cs "ON") (cs "UPDATE")
    (' ' :: (u ++ (t.reverse.dropWhile isJsSpace).reverse))
    (by decide) (by decide) (by decide) (by decide)
    (head_opt_nonws _ 'U' rfl (by decide))
  have hstop : FieldParser.stopKwWs
      ((cs "ON UPDATE " ++ u) ++ (t.reverse.dropWhile isJsSpace).reverse) = true := by
    rw [hsh]
    simp [FieldParser.stopKwWs, hpair]
  have hupd : FieldParser.onUpdStarts
      ((cs "ON UPDATE " ++ u) ++ (t.reverse.dropWhile isJsSpace).reverse) = true := by
    rw [hsh]
    exact hpair
  have hcap : FieldParser.onUpdCapture
      ((cs "ON UPDATE " ++ u) ++ (t.reverse.dropWhile isJsSpace).reverse) = some u := by
    rw [hsh]
    exact onUpdCapture_pre u _ hu huall (trimR_head t ht)
  rw [edv_step_onupd ' ' (cs "ON UPDATE " ++ (u ++ t)) ([] ++ (c :: v3)) u
    ((c :: v3).getLastD ' ') none (by decide)
    (by rw [htr]; exact hstop) (by rw [htr]; exact hupd) (by rw [htr]; exact hcap)]
  rw [List.nil_append]
  have hres : ((c :: v3) ++ cs " ON UPDATE ") ++ u =
      c :: ((v3 ++ cs " ON UPDATE ") ++ u) := by
    simp
  have hane : ((c :: v3) ++ cs " ON UPDATE ") ++ u ≠ [] := by
    rw [hres]
    exact List.cons_ne_nil _ _
  have hahead : ∀ a, (((c :: v3) ++ cs " ON UPDATE ") ++ u).head? = some a →
      isJsSpace a = false := by
    intro a ha
    rw [hres] at ha
    injection ha with h
    rw [← h]
    exact head_nonws_of_all _ hnws c rfl
  have halast : ∀ b, (((c :: v3) ++ cs " ON UPDATE ") ++ u).getLast? = some b →
      isJsSpace b = false := by
    intro b hb
    rw [List.getLast?_append_of_ne_nil _ hu] at hb
    exact last_nonws_of_all u huall b hb
  rw [trimL_eq_self_of _ hane hahead halast]
  have hsq : ¬((((c :: v3) ++ cs " ON UPDATE ") ++ u).head? = some sqChar) := by
    rw [hres]
    have hc := hvall
    rw [List.all_cons, Bool.and_eq_true] at hc
    have hc2 := hc.1
    simp only [simpleVChar, Bool.and_eq_true, Bool.not_eq_true',
      decide_eq_false_iff_not] at hc2
    simp [hc2.1.1.1.2]
  have hdq : ¬((((c :: v3) ++ cs " ON UPDATE ") ++ u).head? = some dqChar) := by
    rw [hres]
    have hc := hvall
    rw [List.all_cons, Bool.and_eq_true] at hc
    have hc2 := hc.1
    simp only [simpleVChar, Bool.and_eq_true, Bool.not_eq_true',
      decide_eq_false_iff_not] at hc2
    simp [hc2.1.1.2]
  rw [stripSimpleQuotes_nonquote _ hsq hdq]
  rw [List.append_assoc]

/-- C3: the amended DEFAULT-scanner contract. DEFAULT NULL yields the literal
string NULL; a simple quoted value (no quote, backslash or space inside) has
its surrounding quotes stripped, a compound quoted value keeps its
punctuation; a trailing ON UPDATE value is appended verbatim after a
normalised single space; and the scan of a simple unquoted value stops at
COMMENT, NOT NULL, NULL, PRIMARY KEY, UNIQUE, AUTO_INCREMENT or a comma only
when that stop token follows whitespace, and at the end of the string (a stop
token or comma directly adjacent to the value is consumed into it). -/
theorem extractDefault_scanner_contract :
    (∀ t, isStopTail t = true →
      FieldParser.extractDefaultValue (cs "DEFAULT NULL" ++ t) = some (cs "NULL")) ∧
    (∀ q w t, (q = sqChar ∨ q = dqChar) →
      w.all (fun c => !(c = q) && !(c = bsChar) && !(c = ' ')) = true →
      isStopTail t = true →
      FieldParser.extractDefaultValue (cs "DEFAULT " ++ (q :: (w ++ q :: t))) = some w) ∧
    FieldParser.extractDefaultValue (cs "DEFAULT \x27a b\x27") = some (cs "\x27a b\x27") ∧
    (∀ v u t, v ≠ [] → v.all simpleVChar = true → u ≠ [] →
      u.all (fun c => !isJsSpace c) = true →
      (∀ c, t.head? = some c → isJsSpace c = true) →
      FieldParser.extractDefaultValue
          (cs "DEFAULT " ++ (v ++ (' ' :: (cs "ON UPDATE " ++ (u ++ t))))) =
        some (v ++ (cs " ON UPDATE " ++ u))) ∧
    (∀ v k t, v ≠ [] → v.all simpleVChar = true →
      (k = cs "COMMENT" ∨ k = cs "NOT NULL" ∨ k = cs "NULL" ∨ k = cs "PRIMARY KEY" ∨
        k = cs "UNIQUE" ∨ k = cs "AUTO_INCREMENT" ∨ k = cs ",") →
      FieldParser.extractDefaultValue (cs "DEFAULT " ++ (v ++ (' ' :: (k ++ t)))) =
        some v) ∧
    (∀ v, v ≠ [] → v.all simpleVChar = true →
      FieldParser.extractDefaultValue (cs "DEFAULT " ++ v) = some v) :=
  ⟨default_null_kept, default_quoted_stripped, by decide,
   default_on_update, default_keyword_stop, default_end_of_input⟩

/-- Closed instances of the C3 contract: a comma separated by whitespace
stops the scan, and DEFAULT NULL at the end of the field text yields NULL. -/
theorem extractDefault_scanner_contract_witness :
    FieldParser.extractDefaultValue (cs "DEFAULT 0 , x") = some (cs "0") ∧
    FieldParser.extractDefaultValue (cs "DEFAULT NULL") = some (cs "NULL") := by
  constructor
  · exact extractDefault_scanner_contract.2.2.2.2.1 (cs "0") (cs ",") (cs " x")
      (by decide) (by decide)
      (Or.inr (Or.inr (Or.inr (Or.inr (Or.inr (Or.inr rfl))))))
  · exact extractDefault_scanner_contract.1 [] (by decide)
